import Mathlib

/-!
Verification of the adaptive batching scheduler of `modules/text2vec-openai/vectorizer/objects.go`
(the `batchWorker` goroutine, its `makeRequest` helper, and the `ObjectBatch` / `object`
entry points).

Shallow-embedding conventions:

* Machine integers (`int`) are modelled as `ℤ`; none of the relevant arithmetic overflows.
* Go `float32`/`float64` arithmetic in the admission checks is modelled over `ℚ`
  (so `0.95` is the exact rational `19/20`); the one place where a float can become
  non-finite (`timePerToken = batchTookInS / float64(tokensInCurrentBatch)` with a zero
  divisor, giving `+Inf` or `NaN`) is modelled by `Option ℚ`, where `none` stands for a
  non-finite value.  Both `Inf` and `NaN` make the strict comparison
  `timePerToken*float64(tokensInCurrentBatch) < OpenAiMaxTimePerBatch` evaluate to `false`
  (`Inf*0 = NaN`, and `NaN < c`, `Inf < c` are `false`), which is what `tptCheckB` does
  for `none`.  Conversions `time.Duration(f)` and `int(f)` truncate toward zero; the
  operands are non-negative here, so they are modelled by `Int.floor`.
* Wall-clock time is an explicit `clock : ℚ` (seconds since `job.startTime`); each client
  call advances it by an oracle-chosen duration and each `time.Sleep` by the slept amount.
* The external client (`Client.Vectorize`) is an oracle: a function from the call number
  and the sent texts to a response (per-item results or a call-level error, optional
  rate-limit metadata, and the call's wall-clock duration).  Text contents are opaque to
  the scheduler, so texts are represented by `ℕ` identifiers.
* `job.ctx.Err() != nil` is polled once per iteration of the main loop; cancellation is
  asynchronous and external, so it is an oracle `ctxPolls : ℕ → Bool` indexed by the poll
  number.
* Go runtime panics (nil-pointer dereference of a `nil` rate limit, index-out-of-range on
  `res.Vector[j]`/`res.Errors[j]` shorter than the request, `origIndex[0]` on an empty
  slice) are modelled by an explicit `crash` result.
* Loops whose termination depends on the oracle (the bootstrap retry loop and the main
  loop) take fuel; `fuelOut` means the fuel ran out, `out` means the per-job body reached
  `job.wg.Done()` (the completion signal).
* The interpreter additionally records a ghost trace of externally observable events
  (client calls and sleeps); `batchRem` is a ghost field recording
  `rateLimit.RemainingTokens` at the moment the most recent item was admitted into the
  current sub-batch.
-/

namespace WeaviateBatch

/-- An embedding vector (`[]float32`); the float entries themselves play no role in any
claim, so they are rationals. -/
abbrev Vec := List ℚ

/-- The error values the scheduler can write into `job.errs`.  `provider id` stands for an
opaque `error` value returned by the external client (call-level or per-item); the other
constructors are the `fmt.Errorf`/`errors.New` values created inside `objects.go`. -/
inductive GoErr where
  | provider (id : ℕ)
  | ctxCancelled
  | tooLong
  | tooLongTimeout
  | rateLimitExceeded
  deriving DecidableEq, Repr

/-- The `ent.RateLimits` value as used by `batchWorker`: the reset fields are integer second counts
(the code multiplies them by `time.Second`). -/
structure RateLimits where
  limitRequests : ℤ
  limitTokens : ℤ
  remainingRequests : ℤ
  remainingTokens : ℤ
  resetRequests : ℤ
  resetTokens : ℤ
  deriving DecidableEq, Repr

/-- One response of the external `Client.Vectorize` call: either a call-level error or an
index-aligned list of per-item outcomes, plus optional rate-limit metadata and the
wall-clock duration of the call. -/
structure Response where
  result : Except GoErr (List (Except GoErr Vec))
  rateLimit : Option RateLimits
  duration : ℚ

/-- Ghost trace events: one `call` per `v.client.Vectorize` invocation (with the original
indices sent, the batch token total, the ghost `batchRem`, whether it was the bootstrap
probe, and the clock when the call started), and one `sleep` per `time.Sleep` (duration
and the clock when the sleep started). -/
inductive Event where
  | call (origIndex : List ℕ) (tokenSum : ℤ) (admRem : ℤ) (isBootstrap : Bool) (clock : ℚ)
  | sleep (dur : ℚ) (clock : ℚ)
  deriving DecidableEq, Repr

/-- Everything fixed for one run of the per-job body of `batchWorker`: the client oracle,
the context-cancellation oracle, `v.maxBatchTime` (seconds) and the job's data
(`job.texts`, `job.tokens`, `job.skipObject`). -/
structure RunCfg where
  oracle : ℕ → List ℕ → Response
  ctxPolls : ℕ → Bool
  maxBatchTime : ℚ
  jobTexts : List ℕ
  jobTokens : List ℤ
  jobSkip : List Bool

/-- The job size `len(job.texts)`. -/
def RunCfg.n (cfg : RunCfg) : ℕ := cfg.jobTexts.length

/-- The interpreter state: the local variables of `batchWorker` (`objCounter`,
`tokensInCurrentBatch`, the `texts` and `origIndex` accumulation buffers, `rateLimit`,
`firstRequest`, `timePerToken`), the job's result buffers (`errs`, `vecs`), the clock,
and ghost instrumentation (`batchRem`, call/poll counters, the event trace). -/
structure St where
  objCounter : ℕ
  tokensInCurrentBatch : ℤ
  btexts : List ℕ
  origIndex : List ℕ
  rateLimit : Option RateLimits
  firstRequest : Bool
  timePerToken : Option ℚ
  batchRem : ℤ
  errs : ℕ → Option GoErr
  vecs : ℕ → Option Vec
  clock : ℚ
  calls : ℕ
  polls : ℕ
  trace : List Event

/-- Model of `count` remaining iterations of the loop `for j := lo; j < n; j++ { if !skip[j] {
errs[j] = e } }`; structural recursion on the iteration count. -/
def markCount (skip : List Bool) (e : GoErr) : ℕ → ℕ → (ℕ → Option GoErr) → ℕ → Option GoErr
  | 0, _, errs => errs
  | count + 1, lo, errs =>
      markCount skip e count (lo + 1)
        (if skip.getD lo false then errs else Function.update errs lo (some e))

/-- The Go loop `for j := lo; j < n; j++ { if !skip[j] { errs[j] = e } }` used by the
context-cancellation branch and the request-rate-abort branch. -/
def markLoop (skip : List Bool) (e : GoErr) (n lo : ℕ) (errs : ℕ → Option GoErr) :
    ℕ → Option GoErr :=
  markCount skip e (n - lo) lo errs

/-- The call-level-error branch of `makeRequest`: `errs[origIndex[j]] = err` for every j. -/
def writeCallErr (e : GoErr) : List ℕ → (ℕ → Option GoErr) → (ℕ → Option GoErr)
  | [], errs => errs
  | i :: is, errs => writeCallErr e is (Function.update errs i (some e))

/-- The success branch of `makeRequest`: for each j, `errs[origIndex[j]] = res.Errors[j]`
or `vecs[origIndex[j]] = res.Vector[j]`.  `none` models the Go index-out-of-range panic
when the response carries fewer items than the request. -/
def writeItems : List ℕ → List (Except GoErr Vec) → (ℕ → Option GoErr) → (ℕ → Option Vec) →
    Option ((ℕ → Option GoErr) × (ℕ → Option Vec))
  | [], _, errs, vecs => some (errs, vecs)
  | _ :: _, [], _, _ => none
  | i :: is, .error e :: its, errs, vecs =>
      writeItems is its (Function.update errs i (some e)) vecs
  | i :: is, .ok v :: its, errs, vecs =>
      writeItems is its errs (Function.update vecs i (some v))

/-- What one `v.makeRequest(job, texts, conf, origIndex)` call returns / writes: the
updated buffers, the client's rate-limit metadata (possibly absent), the call-level error
(if any) and the call's duration. -/
structure CallOut where
  errs : ℕ → Option GoErr
  vecs : ℕ → Option Vec
  rateLimit : Option RateLimits
  callErr : Option GoErr
  duration : ℚ

/-- The helper `makeRequest` (objects.go:260-278).  `origIndex` and `ctexts` always have equal length
at every call site (they are built in lockstep), so iterating over `origIndex` matches the
Go loop over `j < len(texts)`.  `none` models the panic on a response with fewer per-item
results than texts. -/
def makeRequest (oracle : ℕ → List ℕ → Response) (callIdx : ℕ) (ctexts origIndex : List ℕ)
    (errs : ℕ → Option GoErr) (vecs : ℕ → Option Vec) : Option CallOut :=
  let resp := oracle callIdx ctexts
  match resp.result with
  | .error e => some ⟨writeCallErr e origIndex errs, vecs, resp.rateLimit, some e, resp.duration⟩
  | .ok items =>
      match writeItems origIndex items errs vecs with
      | none => none
      | some (errs2, vecs2) => some ⟨errs2, vecs2, resp.rateLimit, none, resp.duration⟩

/-- The timing admission check `timePerToken*float64(tokensInCurrentBatch) <
OpenAiMaxTimePerBatch` (objects.go:192, with `OpenAiMaxTimePerBatch = 10`); a non-finite
`timePerToken` (`none`) makes the float comparison false. -/
def tptCheckB : Option ℚ → ℤ → Bool
  | some t, m => decide (t * (m : ℚ) < 10)
  | none, _ => false

/-- Result of one iteration of the main accumulation loop: continue, break out of the
loop, or a runtime panic. -/
inductive StepRes where
  | cont (s : St)
  | brk (s : St)
  | crash

/-- The `// reset for next vectorizer-batch` lines (objects.go:241-243). -/
def resetBatch (s : St) : St :=
  { s with tokensInCurrentBatch := 0, btexts := [], origIndex := [] }

/-- The request-rate throttle after a dispatch (objects.go:227-238): with zero remaining
requests and a positive reset interval, either fail every non-skipped index from
`origIndex[0]` on and break, or sleep for the reset interval; `origIndex[0]` on an empty
batch is a panic. -/
def throttlePart (cfg : RunCfg) (s : St) (rl2 : RateLimits) : StepRes :=
  if rl2.remainingRequests = 0 ∧ 0 < rl2.resetRequests then
    if cfg.maxBatchTime < s.clock + (rl2.resetRequests : ℚ) then
      match s.origIndex.head? with
      | none => .crash
      | some lo =>
          .brk { s with errs := markLoop cfg.jobSkip GoErr.rateLimitExceeded cfg.n lo s.errs }
    else
      .cont (resetBatch { s with
        clock := s.clock + (rl2.resetRequests : ℚ),
        trace := s.trace ++ [Event.sleep (rl2.resetRequests : ℚ) s.clock] })
  else .cont (resetBatch s)

/-- A dispatch of the current sub-batch from inside the main loop (objects.go:218-243):
call the client, recompute `timePerToken` from the call's duration over the batch token
total (`none` = non-finite on a zero divisor), adopt the new rate limits when present,
then run the throttle check. -/
def dispatchPhase (cfg : RunCfg) (s : St) (rl : RateLimits) : StepRes :=
  match makeRequest cfg.oracle s.calls s.btexts s.origIndex s.errs s.vecs with
  | none => .crash
  | some out =>
      let rl2 := out.rateLimit.getD rl
      throttlePart cfg
        { s with
          errs := out.errs, vecs := out.vecs,
          timePerToken :=
            if s.tokensInCurrentBatch = 0 then none
            else some (out.duration / (s.tokensInCurrentBatch : ℚ)),
          rateLimit := some rl2,
          clock := s.clock + out.duration,
          calls := s.calls + 1,
          trace := s.trace ++
            [Event.call s.origIndex s.tokensInCurrentBatch s.batchRem false s.clock] }
        rl2

/-- The oversized-single-object branch (objects.go:205-216): with an empty sub-batch and a
positive token-reset interval, wait `⌊resetTokens·(tokens/limitTokens)+1⌋` seconds and
credit the budget proportionally when the deadline allows it, otherwise fail the object
permanently and advance.  `oversizedSleepTime` is the wait
`time.Duration(float32(rateLimit.ResetTokens)*fractionOfTotalLimit+1) * time.Second` in
seconds. -/
def oversizedSleepTime (rl : RateLimits) (tok : ℤ) : ℚ :=
  ((⌊(rl.resetTokens : ℚ) * ((tok : ℚ) / (rl.limitTokens : ℚ)) + 1⌋ : ℤ) : ℚ)

/-- The wait-or-fail decision of the oversized-single-object branch (objects.go:208-215). -/
def oversizedWait (cfg : RunCfg) (s : St) (rl : RateLimits) (tok : ℤ) : StepRes :=
  let fraction : ℚ := (tok : ℚ) / (rl.limitTokens : ℚ)
  let sleepTime : ℚ := oversizedSleepTime rl tok
  if s.clock + sleepTime < cfg.maxBatchTime then
    .cont { s with
      clock := s.clock + sleepTime,
      rateLimit := some { rl with
        remainingTokens := rl.remainingTokens + ⌊(rl.limitTokens : ℚ) * fraction⌋ },
      trace := s.trace ++ [Event.sleep sleepTime s.clock] }
  else
    .cont { s with
      errs := Function.update s.errs s.objCounter (some GoErr.tooLongTimeout),
      objCounter := s.objCounter + 1 }

/-- One iteration of the main loop `for objCounter < len(job.texts)`
(objects.go:169-244), assuming `objCounter < len(job.texts)`: the context poll, the skip
check, the hard token ceiling, the three-way admission check (with fall-through to an
immediate dispatch when the last index was just admitted), the oversized-object wait, and
otherwise a dispatch of the accumulated sub-batch. -/
def mainIter (cfg : RunCfg) (s : St) : StepRes :=
  if cfg.ctxPolls s.polls then
    .brk { s with
      polls := s.polls + 1,
      errs := markLoop cfg.jobSkip GoErr.ctxCancelled cfg.n s.objCounter s.errs }
  else
    let s1 : St := { s with polls := s.polls + 1 }
    if cfg.jobSkip.getD s1.objCounter false then
      .cont { s1 with objCounter := s1.objCounter + 1 }
    else
      match s1.rateLimit with
      | none => .crash
      | some rl =>
          let tok := cfg.jobTokens.getD s1.objCounter 0
          if rl.limitTokens < tok then
            .cont { s1 with
              errs := Function.update s1.errs s1.objCounter (some GoErr.tooLong),
              objCounter := s1.objCounter + 1 }
          else
            if ((s1.tokensInCurrentBatch + tok : ℤ) : ℚ) < 19/20 * (rl.remainingTokens : ℚ)
                ∧ tptCheckB s1.timePerToken s1.tokensInCurrentBatch = true
                ∧ s1.btexts.length < 2000 then
              let s2 : St := { s1 with
                tokensInCurrentBatch := s1.tokensInCurrentBatch + tok,
                btexts := s1.btexts ++ [cfg.jobTexts.getD s1.objCounter 0],
                origIndex := s1.origIndex ++ [s1.objCounter],
                batchRem := rl.remainingTokens,
                objCounter := s1.objCounter + 1 }
              if s2.objCounter < cfg.n then .cont s2 else dispatchPhase cfg s2 rl
            else if s1.btexts = [] ∧ 0 < rl.resetTokens then
              oversizedWait cfg s1 rl tok
            else
              dispatchPhase cfg s1 rl

/-- Result of a whole phase (or of the whole per-job body): completed (`out`), panicked
(`crash`), or out of fuel (`fuelOut`). -/
inductive PhaseRes where
  | out (s : St)
  | crash
  | fuelOut

/-- The bootstrap loop `for objCounter < len(job.texts) && firstRequest`
(objects.go:156-167): send a single-item probe for the first non-skipped object; on a
call-level error record it and retry (note: `continue` skips the `objCounter++`, so the
same index is retried), on success clear `firstRequest` and advance. -/
def runBootstrap (cfg : RunCfg) : ℕ → St → PhaseRes
  | 0, _ => .fuelOut
  | fuel + 1, s =>
    if s.objCounter < cfg.n ∧ s.firstRequest = true then
      if cfg.jobSkip.getD s.objCounter false then
        runBootstrap cfg fuel { s with objCounter := s.objCounter + 1 }
      else
        match makeRequest cfg.oracle s.calls [cfg.jobTexts.getD s.objCounter 0]
            [s.objCounter] s.errs s.vecs with
        | none => .crash
        | some out =>
            let s2 : St := { s with
              errs := out.errs, vecs := out.vecs,
              rateLimit := out.rateLimit,
              clock := s.clock + out.duration,
              calls := s.calls + 1,
              trace := s.trace ++
                [Event.call [s.objCounter] (cfg.jobTokens.getD s.objCounter 0)
                  s.batchRem true s.clock] }
            match out.callErr with
            | some e =>
                runBootstrap cfg fuel
                  { s2 with errs := Function.update s2.errs s.objCounter (some e) }
            | none =>
                runBootstrap cfg fuel
                  { s2 with firstRequest := false, objCounter := s.objCounter + 1 }
    else .out s

/-- The main loop `for objCounter < len(job.texts)` (objects.go:169-244), driven by fuel;
`out` is reached when the loop condition fails or a `break` fires. -/
def runMain (cfg : RunCfg) : ℕ → St → PhaseRes
  | 0, _ => .fuelOut
  | fuel + 1, s =>
    if s.objCounter < cfg.n then
      match mainIter cfg s with
      | .cont s2 => runMain cfg fuel s2
      | .brk s2 => .out s2
      | .crash => .crash
    else .out s

/-- The trailing-batch drain (objects.go:246-253): if the loop was left with a non-empty
buffer and `objCounter == len(job.texts)`, dispatch it (adopting new rate limits only when
present). -/
def drainPhase (cfg : RunCfg) (s : St) : PhaseRes :=
  if s.btexts ≠ [] ∧ s.objCounter = cfg.n then
    match makeRequest cfg.oracle s.calls s.btexts s.origIndex s.errs s.vecs with
    | none => .crash
    | some out =>
        .out { s with
          errs := out.errs, vecs := out.vecs,
          rateLimit := match out.rateLimit with | some rl => some rl | none => s.rateLimit,
          clock := s.clock + out.duration,
          calls := s.calls + 1,
          trace := s.trace ++
            [Event.call s.origIndex s.tokensInCurrentBatch s.batchRem false s.clock] }
  else .out s

/-- The `batchWorker` state that survives from one job to the next: `rateLimit`,
`firstRequest` and `timePerToken` (objects.go:138-143). -/
structure WorkerState where
  rateLimit : Option RateLimits
  firstRequest : Bool
  timePerToken : Option ℚ

/-- The worker state right after `New`: a zeroed `&ent.RateLimits{}`, `firstRequest =
true`, `timePerToken = 0.0`. -/
def freshWorker : WorkerState := ⟨some ⟨0, 0, 0, 0, 0, 0⟩, true, some 0⟩

/-- The per-job initial state (objects.go:148-151): counters and buffers reset, result
buffers empty, `c0` = the time already elapsed since `job.startTime` when the worker
dequeues the job. -/
def initSt (w : WorkerState) (c0 : ℚ) : St :=
  { objCounter := 0, tokensInCurrentBatch := 0, btexts := [], origIndex := [],
    rateLimit := w.rateLimit, firstRequest := w.firstRequest, timePerToken := w.timePerToken,
    batchRem := 0, errs := fun _ => none, vecs := fun _ => none,
    clock := c0, calls := 0, polls := 0, trace := [] }

/-- The whole per-job body of `batchWorker` (objects.go:145-256): bootstrap, main loop,
drain, then `job.wg.Done()`; `out s` means the completion signal fired with final state
`s`. -/
def batchWorkerJob (cfg : RunCfg) (w : WorkerState) (c0 : ℚ) (fuel : ℕ) : PhaseRes :=
  match runBootstrap cfg fuel (initSt w c0) with
  | .out s =>
      match runMain cfg fuel s with
      | .out s2 => drainPhase cfg s2
      | .crash => .crash
      | .fuelOut => .fuelOut
  | .crash => .crash
  | .fuelOut => .fuelOut

/-- Whether the job completed (reached `job.wg.Done()`). -/
def isOut : PhaseRes → Bool
  | .out _ => true
  | _ => false

/-- The final `job.errs` of a completed run. -/
def jobErrs : PhaseRes → ℕ → Option GoErr
  | .out s => s.errs
  | _ => fun _ => none

/-- The final `job.vecs` of a completed run. -/
def jobVecs : PhaseRes → ℕ → Option Vec
  | .out s => s.vecs
  | _ => fun _ => none

/-- The ghost event trace of a completed run. -/
def jobTrace : PhaseRes → List Event
  | .out s => s.trace
  | _ => []

/-- The worker's `timePerToken` after a completed run (`none` = non-finite). -/
def jobTpt : PhaseRes → Option ℚ
  | .out s => s.timePerToken
  | _ => none

/-- Whether a main-loop iteration broke out of the loop. -/
def isBrk : StepRes → Bool
  | .brk _ => true
  | _ => false

/-- Whether a main-loop iteration continued the loop. -/
def isCont : StepRes → Bool
  | .cont _ => true
  | _ => false

/-- The `errs` buffer after a main-loop iteration. -/
def stepErrs : StepRes → ℕ → Option GoErr
  | .cont s => s.errs
  | .brk s => s.errs
  | .crash => fun _ => none

/-- The `vecs` buffer after a main-loop iteration. -/
def stepVecs : StepRes → ℕ → Option Vec
  | .cont s => s.vecs
  | .brk s => s.vecs
  | .crash => fun _ => none

/-- The trace after a main-loop iteration. -/
def stepTrace : StepRes → List Event
  | .cont s => s.trace
  | .brk s => s.trace
  | .crash => []

/-- The value of `objCounter` after a main-loop iteration. -/
def stepObj : StepRes → ℕ
  | .cont s => s.objCounter
  | .brk s => s.objCounter
  | .crash => 0

/-- The per-index completion invariant claimed by the spec: a skipped index has neither a
vector nor an error; a non-skipped index has exactly one of the two. -/
def outcomeOk (skip : List Bool) (errs : ℕ → Option GoErr) (vecs : ℕ → Option Vec)
    (i : ℕ) : Prop :=
  if skip.getD i false then errs i = none ∧ vecs i = none
  else (errs i ≠ none ∧ vecs i = none) ∨ (errs i = none ∧ vecs i ≠ none)

instance (skip : List Bool) (errs : ℕ → Option GoErr) (vecs : ℕ → Option Vec) (i : ℕ) :
    Decidable (outcomeOk skip errs vecs i) := by
  unfold outcomeOk; infer_instance

/-- The token-budget property of one trace event (claim C7): every non-bootstrap dispatch
of a non-empty sub-batch has a token total equal to the sum of its items' token counts and
strictly below 95% of the remaining-token budget recorded at the last admission. -/
def tokenBudgetOk (tokens : List ℤ) : Event → Prop
  | .call oi sum admRem bs _ =>
      bs = false → oi ≠ [] →
        ((sum : ℚ) < 19/20 * (admRem : ℚ) ∧ sum = (oi.map fun i => tokens.getD i 0).sum)
  | .sleep _ _ => True

/-- The deadline property of one trace event (claim C4): every sleep that is entered
satisfies `elapsed + duration ≤ maxBatchTime`. -/
def sleepOk (maxBatchTime : ℚ) : Event → Prop
  | .call _ _ _ _ _ => True
  | .sleep d c => c + d ≤ maxBatchTime

/-- The final `origIndex` buffer of a completed run (a non-empty value exposes a sub-batch
that was accumulated but never dispatched, or — after a request-rate abort on the last
index — the buffer the drain re-dispatches). -/
def jobOrigIndex : PhaseRes → List ℕ
  | .out s => s.origIndex
  | _ => []

/-- The state carried by a `cont`/`brk` step result (`crash` carries none; a dummy state
is returned for it). -/
def stepSt : StepRes → St
  | .cont s => s
  | .brk s => s
  | .crash => initSt freshWorker 0

/-- Well-behaved client oracle: every call returns an index-aligned per-item result
(no call-level error, no short response) together with rate-limit metadata that never
triggers the request-rate throttle (`RemainingRequests == 0 && ResetRequests > 0`). -/
def oracleOk (oracle : ℕ → List ℕ → Response) : Prop :=
  ∀ k ts,
    (∃ items, (oracle k ts).result = Except.ok items ∧ items.length = ts.length) ∧
    (∃ rl, (oracle k ts).rateLimit = some rl ∧
      (rl.remainingRequests ≠ 0 ∨ rl.resetRequests ≤ 0))

/-- The job's context is never cancelled and its own deadline never fires. -/
def ctxLive (ctxPolls : ℕ → Bool) : Prop := ∀ k, ctxPolls k = false

/-- The function `libvectorizer.CombineVectors` (external to the excerpt).  Modelled from the spec:
the single-object path "combines [multiple embedding chunks] into one vector using a
fixed deterministic combination function (e.g., element-wise mean)"; its exact values are
irrelevant to every claim. -/
def CombineVectors (vs : List Vec) : Vec :=
  (List.range ((vs.headD []).length)).map
    fun j => (vs.map fun v => v.getD j 0).sum / (vs.length : ℚ)

/-- The single-object path `object` (objects.go:102-114), as a function of the client
call's outcome (a call-level error or the `res.Vector` chunk list): on more than one
chunk combine, otherwise return `res.Vector[0]`; `none` models the index-out-of-range
panic on an empty chunk list. -/
def object (res : Except GoErr (List Vec)) : Option (Except GoErr Vec) :=
  match res with
  | .error e => some (.error e)
  | .ok chunks =>
      if 1 < chunks.length then some (.ok (CombineVectors chunks))
      else
        match chunks.get? 0 with
        | some v => some (.ok v)
        | none => none

/-- What `ObjectBatch` (objects.go:280-336) does before any enqueue/wait: abort with a
per-index error map when tokenizer model resolution fails, return immediately (all-`nil`
vectors, empty error map) when every object is skipped, otherwise build the job's `texts`
and `tokens` (zero values at skipped indices) for the queue. -/
inductive BatchEntryRes where
  | abortTokenize (errs : ℕ → Option GoErr)
  | allSkipped (vecs : ℕ → Option Vec) (errs : ℕ → Option GoErr)
  | enqueued (texts : List ℕ) (tokens : List ℤ)

/-- The pre-queue part of `ObjectBatch` (objects.go:280-331).  `encodingErr` is the result
of `tiktoken.EncodingForModel` (external), `textOf`/`tokensOf` are the external text
extractor and token counter applied to object `i`.  Only the `enqueued` outcome leads to
a job in the queue and hence to client calls. -/
def objectBatchEntry (numObjects : ℕ) (skip : List Bool) (encodingErr : Option GoErr)
    (textOf : ℕ → ℕ) (tokensOf : ℕ → ℤ) : BatchEntryRes :=
  match encodingErr with
  | some e => .abortTokenize fun j => if j < numObjects then some e else none
  | none =>
      if ∀ i ∈ List.range numObjects, skip.getD i false then
        .allSkipped (fun _ => none) (fun _ => none)
      else
        .enqueued
          ((List.range numObjects).map fun i => if skip.getD i false then 0 else textOf i)
          ((List.range numObjects).map fun i => if skip.getD i false then 0 else tokensOf i)

/-- The error map produced by the `ObjectBatch` entry (empty unless the run filled it). -/
def entryErrs : BatchEntryRes → ℕ → Option GoErr
  | .abortTokenize errs => errs
  | .allSkipped _ errs => errs
  | .enqueued _ _ => fun _ => none

/-- Whether the `ObjectBatch` entry enqueued a job (the only path to client calls). -/
def entryIsEnqueued : BatchEntryRes → Bool
  | .enqueued _ _ => true
  | _ => false

/-- A rate-limit value with ample budget and no reset pressure. -/
def rlA : RateLimits := ⟨100, 100, 100, 100, 0, 0⟩

/-- An oracle that answers every call with per-item successes and rate limits `rl`. -/
def okOracle (rl : RateLimits) : ℕ → List ℕ → Response :=
  fun _ ts => ⟨.ok (ts.map fun _ => .ok [1]), some rl, 1⟩

/-- Scenario: 3 objects, bootstrap handles object 0, object 1 is admitted into the
pending sub-batch, and the context is cancelled at the next poll (before any dispatch of
that sub-batch). -/
def cfgC1 : RunCfg :=
  { oracle := okOracle rlA, ctxPolls := fun k => decide (1 ≤ k), maxBatchTime := 100,
    jobTexts := [10, 11, 12], jobTokens := [1, 1, 1], jobSkip := [false, false, false] }

/-- Scenario: 2 objects; the dispatch of the sub-batch `[1]` (which reaches the last
index) comes back with zero remaining requests and a 10 s reset while only 3 s of the 5 s
deadline remain. -/
def cfgC3 : RunCfg :=
  { oracle := fun k ts =>
      if k = 0 then ⟨.ok (ts.map fun _ => .ok [1]), some rlA, 1⟩
      else ⟨.ok (ts.map fun _ => .ok [1]), some ⟨100, 100, 0, 100, 10, 0⟩, 1⟩,
    ctxPolls := fun _ => false, maxBatchTime := 5,
    jobTexts := [20, 21], jobTokens := [1, 1], jobSkip := [false, false] }

/-- Scenario: a single-object job whose bootstrap probe fails on every attempt. -/
def cfgC2 : RunCfg :=
  { oracle := fun _ _ => ⟨.error (.provider 7), some ⟨0, 0, 0, 0, 0, 0⟩, 1⟩,
    ctxPolls := fun _ => false, maxBatchTime := 100,
    jobTexts := [30], jobTokens := [1], jobSkip := [false] }

/-- Scenario: object 1 has token count 0, so the sub-batch `[1]` is dispatched with a
zero token total; the refreshed budget would admit object 2 (5 < 95% of 100) but the
poisoned time-per-token estimate rejects it forever. -/
def cfgC10 : RunCfg :=
  { oracle := fun k ts =>
      if k = 0 then ⟨.ok (ts.map fun _ => .ok [1]), some ⟨10, 100, 10, 2, 0, 0⟩, 1⟩
      else ⟨.ok (ts.map fun _ => .ok [1]), some ⟨10, 100, 10, 100, 0, 10⟩, 1⟩,
    ctxPolls := fun _ => false, maxBatchTime := 3,
    jobTexts := [40, 41, 42], jobTokens := [1, 0, 5], jobSkip := [false, false, false] }

/-- Scenario: 4 objects, bootstrap handles object 0, objects 1 and 2 are admitted into
the pending sub-batch, then the context is cancelled with object 3 unprocessed. -/
def cfgC6 : RunCfg :=
  { oracle := okOracle rlA, ctxPolls := fun k => decide (2 ≤ k), maxBatchTime := 100,
    jobTexts := [50, 51, 52, 53], jobTokens := [1, 1, 1, 1],
    jobSkip := [false, false, false, false] }

/-- Scenario: a plain 2-object job that completes cleanly (bootstrap for object 0, one
dispatched sub-batch `[1]`). -/
def cfgW : RunCfg :=
  { oracle := okOracle rlA, ctxPolls := fun _ => false, maxBatchTime := 100,
    jobTexts := [60, 61], jobTokens := [1, 1], jobSkip := [false, false] }

/-- Scenario: the dispatch of sub-batch `[1]` exhausts the request budget with a 2 s
reset while the deadline is far away, so the scheduler sleeps 2 s and resumes. -/
def cfgSleep : RunCfg :=
  { oracle := fun k ts =>
      if k = 0 then ⟨.ok (ts.map fun _ => .ok [1]), some rlA, 1⟩
      else ⟨.ok (ts.map fun _ => .ok [1]), some ⟨100, 100, 0, 100, 2, 0⟩, 1⟩,
    ctxPolls := fun _ => false, maxBatchTime := 100,
    jobTexts := [70, 71], jobTokens := [1, 1], jobSkip := [false, false] }

/-- A tiny deadline for exercising the fail-instead-of-sleep branches at concrete
states. -/
def cfgTiny : RunCfg :=
  { oracle := okOracle rlA, ctxPolls := fun _ => false, maxBatchTime := 1/2,
    jobTexts := [80, 81], jobTokens := [1, 1], jobSkip := [false, false] }

/-- Variant of `cfgC6` whose context is already cancelled at every poll. -/
def cfgCancel : RunCfg := { cfgC6 with ctxPolls := fun _ => true }

/-- A concrete anonymous state for instantiating step-level theorems. -/
def sampleSt : St := initSt freshWorker 0

/-- Variant of `sampleSt` with a pending sub-batch `[1]`. -/
def sampleSt2 : St := { sampleSt with origIndex := [1], btexts := [81], objCounter := 2 }

/-- Invariant of the accumulation machinery: `objCounter` stays in range, the pending
sub-batch holds distinct already-visited non-skipped indices with no outcome yet, every
visited index outside the pending sub-batch already satisfies the completion trichotomy,
no index at or beyond `objCounter` has an outcome, and the two halves of the sub-batch
buffer have equal length. -/
structure Inv1 (cfg : RunCfg) (s : St) : Prop where
  ocLe : s.objCounter ≤ cfg.n
  nodup : s.origIndex.Nodup
  entries : ∀ i ∈ s.origIndex, i < s.objCounter ∧ cfg.jobSkip.getD i false = false ∧
      s.errs i = none ∧ s.vecs i = none
  settled : ∀ i, i < s.objCounter → i ∉ s.origIndex → outcomeOk cfg.jobSkip s.errs s.vecs i
  clean : ∀ i, s.objCounter ≤ i → s.errs i = none ∧ s.vecs i = none
  len : s.origIndex.length = s.btexts.length

/-- Invariant of the accumulation machinery for the token budget: the running batch token
total is the sum of the admitted token counts, a non-empty batch's total is strictly below
95% of the remaining-token budget recorded at the last admission (`batchRem`), and every
recorded call event satisfies the budget property. -/
structure Inv7 (cfg : RunCfg) (s : St) : Prop where
  sum : s.tokensInCurrentBatch = (s.origIndex.map fun i => cfg.jobTokens.getD i 0).sum
  bound : s.origIndex ≠ [] →
      (s.tokensInCurrentBatch : ℚ) < 19/20 * (s.batchRem : ℚ)
  evs : ∀ ev ∈ s.trace, tokenBudgetOk cfg.jobTokens ev

/-! ## Pointwise descriptions of the buffer-writing loops -/

theorem markCount_apply (skip : List Bool) (e : GoErr) :
    ∀ (count lo : ℕ) (errs : ℕ → Option GoErr) (j : ℕ),
      markCount skip e count lo errs j =
        if lo ≤ j ∧ j < lo + count ∧ skip.getD j false = false then some e else errs j := by
  intro count
  induction count with
  | zero =>
      intro lo errs j
      rw [markCount, if_neg]
      rintro ⟨h1, h2, -⟩
      omega
  | succ m ih =>
      intro lo errs j
      rw [markCount, ih]
      by_cases hj : j = lo
      · subst hj
        rw [if_neg (by omega)]
        by_cases hs : skip.getD j false
        · rw [if_pos hs, if_neg (by intro h; rw [h.2.2] at hs; cases hs)]
        · rw [if_neg hs,
            if_pos ⟨le_refl j, by omega, by simpa only [Bool.not_eq_true] using hs⟩,
            Function.update_same]
      · by_cases hc : lo ≤ j ∧ j < lo + (m + 1) ∧ skip.getD j false = false
        · rw [if_pos ⟨by omega, by omega, hc.2.2⟩, if_pos hc]
        · rw [if_neg (by intro h; exact hc ⟨by omega, by omega, h.2.2⟩), if_neg hc]
          by_cases hs : skip.getD lo false
          · rw [if_pos hs]
          · rw [if_neg hs, Function.update_noteq hj]

theorem markLoop_apply (skip : List Bool) (e : GoErr) (n lo : ℕ) (errs : ℕ → Option GoErr)
    (j : ℕ) :
    markLoop skip e n lo errs j =
      if lo ≤ j ∧ j < n ∧ skip.getD j false = false then some e else errs j := by
  rw [markLoop, markCount_apply]
  by_cases h : lo ≤ j ∧ j < n ∧ skip.getD j false = false
  · rw [if_pos ⟨h.1, by omega, h.2.2⟩, if_pos h]
  · rw [if_neg (by intro hh; exact h ⟨hh.1, by omega, hh.2.2⟩), if_neg h]

theorem writeCallErr_apply (e : GoErr) :
    ∀ (oi : List ℕ) (errs : ℕ → Option GoErr) (j : ℕ),
      writeCallErr e oi errs j = if j ∈ oi then some e else errs j := by
  intro oi
  induction oi with
  | nil => intro errs j; simp [writeCallErr]
  | cons i is ih =>
      intro errs j
      rw [writeCallErr, ih]
      by_cases hm : j ∈ is
      · rw [if_pos hm, if_pos (List.mem_cons_of_mem i hm)]
      · rw [if_neg hm]
        by_cases hj : j = i
        · subst hj
          rw [if_pos (List.mem_cons_self j is), Function.update_same]
        · rw [if_neg (by simp [hj, hm]), Function.update_noteq hj]

theorem writeItems_isSome :
    ∀ (oi : List ℕ) (items : List (Except GoErr Vec)) (errs : ℕ → Option GoErr)
      (vecs : ℕ → Option Vec), oi.length ≤ items.length →
      (writeItems oi items errs vecs).isSome = true := by
  intro oi
  induction oi with
  | nil => intro items errs vecs _; simp [writeItems]
  | cons i is ih =>
      intro items errs vecs hlen
      match items with
      | [] => simp at hlen
      | .error e :: its =>
          rw [writeItems]
          exact ih its _ _ (by simpa using hlen)
      | .ok v :: its =>
          rw [writeItems]
          exact ih its _ _ (by simpa using hlen)

theorem writeItems_sp :
    ∀ (oi : List ℕ) (items : List (Except GoErr Vec)) (errs : ℕ → Option GoErr)
      (vecs : ℕ → Option Vec) (errs2 : ℕ → Option GoErr) (vecs2 : ℕ → Option Vec),
      writeItems oi items errs vecs = some (errs2, vecs2) →
      (∀ j, j ∉ oi → errs2 j = errs j ∧ vecs2 j = vecs j) ∧
      (oi.Nodup → ∀ j ∈ oi,
        (errs2 j ≠ none ∧ vecs2 j = vecs j) ∨ (errs2 j = errs j ∧ vecs2 j ≠ none)) := by
  intro oi
  induction oi with
  | nil =>
      intro items errs vecs errs2 vecs2 h
      rw [writeItems] at h
      obtain ⟨he, hv⟩ : errs = errs2 ∧ vecs = vecs2 := by
        have := Option.some.inj h
        exact ⟨congrArg Prod.fst this, congrArg Prod.snd this⟩
      subst he; subst hv
      exact ⟨fun j _ => ⟨rfl, rfl⟩, fun _ j hj => absurd hj (List.not_mem_nil j)⟩
  | cons i is ih =>
      intro items errs vecs errs2 vecs2 h
      match items with
      | [] => rw [writeItems] at h; exact absurd h (by simp)
      | .error e :: its =>
          rw [writeItems] at h
          obtain ⟨hout, hmem⟩ := ih its _ _ _ _ h
          refine ⟨fun j hj => ?_, fun hnd j hj => ?_⟩
          · have hji : j ≠ i := fun hh => hj (hh ▸ List.mem_cons_self i is)
            have hjs : j ∉ is := fun hh => hj (List.mem_cons_of_mem i hh)
            obtain ⟨h1, h2⟩ := hout j hjs
            exact ⟨h1.trans (Function.update_noteq hji _ _), h2⟩
          · have hnd2 := (List.nodup_cons.mp hnd).2
            have hni : i ∉ is := (List.nodup_cons.mp hnd).1
            rcases List.mem_cons.mp hj with hji | hjs
            · subst hji
              obtain ⟨h1, h2⟩ := hout j hni
              refine Or.inl ⟨?_, h2⟩
              rw [h1, Function.update_same]
              simp
            · rcases hmem hnd2 j hjs with hc | hc
              · exact Or.inl hc
              · have hji : j ≠ i := fun hh => hni (hh ▸ hjs)
                exact Or.inr ⟨hc.1.trans (Function.update_noteq hji _ _), hc.2⟩
      | .ok v :: its =>
          rw [writeItems] at h
          obtain ⟨hout, hmem⟩ := ih its _ _ _ _ h
          refine ⟨fun j hj => ?_, fun hnd j hj => ?_⟩
          · have hji : j ≠ i := fun hh => hj (hh ▸ List.mem_cons_self i is)
            have hjs : j ∉ is := fun hh => hj (List.mem_cons_of_mem i hh)
            obtain ⟨h1, h2⟩ := hout j hjs
            exact ⟨h1, h2.trans (Function.update_noteq hji _ _)⟩
          · have hnd2 := (List.nodup_cons.mp hnd).2
            have hni : i ∉ is := (List.nodup_cons.mp hnd).1
            rcases List.mem_cons.mp hj with hji | hjs
            · subst hji
              obtain ⟨h1, h2⟩ := hout j hni
              refine Or.inr ⟨h1, ?_⟩
              rw [h2, Function.update_same]
              simp
            · rcases hmem hnd2 j hjs with hc | hc
              · have hji : j ≠ i := fun hh => hni (hh ▸ hjs)
                exact Or.inl ⟨hc.1, hc.2.trans (Function.update_noteq hji _ _)⟩
              · exact Or.inr hc

/-- Under `oracleOk`, every `makeRequest` with equally long text/index lists succeeds with
no call-level error, writing per-item outcomes through `writeItems`. -/
theorem makeRequest_ok {oracle : ℕ → List ℕ → Response} (hor : oracleOk oracle)
    (k : ℕ) (ctexts origIndex : List ℕ) (errs : ℕ → Option GoErr) (vecs : ℕ → Option Vec)
    (hlen : origIndex.length = ctexts.length) :
    ∃ items errs2 vecs2,
      (oracle k ctexts).result = Except.ok items ∧ items.length = ctexts.length ∧
      writeItems origIndex items errs vecs = some (errs2, vecs2) ∧
      makeRequest oracle k ctexts origIndex errs vecs =
        some ⟨errs2, vecs2, (oracle k ctexts).rateLimit, none, (oracle k ctexts).duration⟩ := by
  obtain ⟨⟨items, hres, hilen⟩, -⟩ := hor k ctexts
  have hsome := writeItems_isSome origIndex items errs vecs (by omega)
  obtain ⟨⟨errs2, vecs2⟩, hw⟩ := Option.isSome_iff_exists.mp hsome
  refine ⟨items, errs2, vecs2, hres, hilen, hw, ?_⟩
  rw [makeRequest]
  simp only [hres, hw]

/-! ## Basic facts about per-index outcomes -/

theorem outcomeOk_skip {skip : List Bool} {errs : ℕ → Option GoErr} {vecs : ℕ → Option Vec}
    {i : ℕ} (hs : skip.getD i false = true) (he : errs i = none) (hv : vecs i = none) :
    outcomeOk skip errs vecs i := by
  unfold outcomeOk
  rw [if_pos hs]
  exact ⟨he, hv⟩

theorem outcomeOk_err {skip : List Bool} {errs : ℕ → Option GoErr} {vecs : ℕ → Option Vec}
    {i : ℕ} (hs : skip.getD i false = false) (he : errs i ≠ none) (hv : vecs i = none) :
    outcomeOk skip errs vecs i := by
  unfold outcomeOk
  rw [if_neg (by rw [hs]; exact Bool.false_ne_true)]
  exact Or.inl ⟨he, hv⟩

theorem outcomeOk_vec {skip : List Bool} {errs : ℕ → Option GoErr} {vecs : ℕ → Option Vec}
    {i : ℕ} (hs : skip.getD i false = false) (he : errs i = none) (hv : vecs i ≠ none) :
    outcomeOk skip errs vecs i := by
  unfold outcomeOk
  rw [if_neg (by rw [hs]; exact Bool.false_ne_true)]
  exact Or.inr ⟨he, hv⟩

theorem outcomeOk_ofEq {skip : List Bool} {errs errs2 : ℕ → Option GoErr}
    {vecs vecs2 : ℕ → Option Vec} {i : ℕ} (h : outcomeOk skip errs vecs i)
    (he : errs2 i = errs i) (hv : vecs2 i = vecs i) : outcomeOk skip errs2 vecs2 i := by
  unfold outcomeOk at h ⊢
  rw [he, hv]
  exact h

/-! ## The bookkeeping invariant behind the completion trichotomy -/

theorem Inv1_congr {cfg : RunCfg} {s t : St} (h : Inv1 cfg s)
    (h1 : t.objCounter = s.objCounter) (h2 : t.origIndex = s.origIndex)
    (h3 : t.errs = s.errs) (h4 : t.vecs = s.vecs) (h5 : t.btexts = s.btexts) :
    Inv1 cfg t := by
  obtain ⟨oc, tk, bt, oi, rl, fr, tp, br, er, ve, ck, ca, po, tr⟩ := t
  dsimp only at h1 h2 h3 h4 h5
  subst h1 h2 h3 h4 h5
  exact ⟨h.ocLe, h.nodup, h.entries, h.settled, h.clean, h.len⟩

/-- Advancing over a skipped index preserves the invariant. -/
theorem Inv1_skipAdvance {cfg : RunCfg} {s t : St} (hInv : Inv1 cfg s)
    (hoc : s.objCounter < cfg.n) (hs : cfg.jobSkip.getD s.objCounter false = true)
    (h1 : t.objCounter = s.objCounter + 1) (h2 : t.origIndex = s.origIndex)
    (h3 : t.errs = s.errs) (h4 : t.vecs = s.vecs) (h5 : t.btexts = s.btexts) :
    Inv1 cfg t := by
  obtain ⟨oc, tk, bt, oi, rl, fr, tp, br, er, ve, ck, ca, po, tr⟩ := t
  dsimp only at h1 h2 h3 h4 h5
  subst h1 h2 h3 h4 h5
  refine ⟨?_, ?_, ?_, ?_, ?_, ?_⟩ <;> dsimp only
  · omega
  · exact hInv.nodup
  · intro i hi
    obtain ⟨a, b, c, d⟩ := hInv.entries i hi
    exact ⟨by omega, b, c, d⟩
  · intro i hilt hni
    by_cases hio : i = s.objCounter
    · subst hio
      exact outcomeOk_skip hs (hInv.clean _ le_rfl).1 (hInv.clean _ le_rfl).2
    · exact hInv.settled i (by omega) hni
  · intro i hi
    exact hInv.clean i (by omega)
  · exact hInv.len

/-- Advancing over an index while writing an error for it preserves the invariant
(the too-long and oversized-timeout branches). -/
theorem Inv1_errAdvance {cfg : RunCfg} {s t : St} (hInv : Inv1 cfg s)
    (hoc : s.objCounter < cfg.n) (hs : cfg.jobSkip.getD s.objCounter false = false)
    (e : GoErr)
    (h1 : t.objCounter = s.objCounter + 1) (h2 : t.origIndex = s.origIndex)
    (h3 : t.errs = Function.update s.errs s.objCounter (some e)) (h4 : t.vecs = s.vecs)
    (h5 : t.btexts = s.btexts) : Inv1 cfg t := by
  have hocm : ∀ i ∈ s.origIndex, i ≠ s.objCounter := by
    intro i hi
    have := (hInv.entries i hi).1
    omega
  obtain ⟨oc, tk, bt, oi, rl, fr, tp, br, er, ve, ck, ca, po, tr⟩ := t
  dsimp only at h1 h2 h3 h4 h5
  subst h1 h2 h3 h4 h5
  refine ⟨?_, ?_, ?_, ?_, ?_, ?_⟩ <;> dsimp only
  · omega
  · exact hInv.nodup
  · intro i hi
    obtain ⟨a, b, c, d⟩ := hInv.entries i hi
    exact ⟨by omega, b, by rw [Function.update_noteq (hocm i hi)]; exact c, d⟩
  · intro i hilt hni
    by_cases hio : i = s.objCounter
    · subst hio
      refine outcomeOk_err hs ?_ (hInv.clean _ le_rfl).2
      rw [Function.update_same]
      simp
    · refine outcomeOk_ofEq (hInv.settled i (by omega) hni) ?_ rfl
      exact Function.update_noteq hio _ _
  · intro i hi
    refine ⟨?_, (hInv.clean i (by omega)).2⟩
    rw [Function.update_noteq (by omega)]
    exact (hInv.clean i (by omega)).1
  · exact hInv.len

/-- Admitting the current index into the pending sub-batch preserves the invariant. -/
theorem Inv1_admit {cfg : RunCfg} {s t : St} (hInv : Inv1 cfg s)
    (hoc : s.objCounter < cfg.n) (hs : cfg.jobSkip.getD s.objCounter false = false)
    (x : ℕ)
    (h1 : t.objCounter = s.objCounter + 1) (h2 : t.origIndex = s.origIndex ++ [s.objCounter])
    (h3 : t.errs = s.errs) (h4 : t.vecs = s.vecs) (h5 : t.btexts = s.btexts ++ [x]) :
    Inv1 cfg t := by
  have hocm : s.objCounter ∉ s.origIndex := by
    intro hmem
    have := (hInv.entries _ hmem).1
    omega
  obtain ⟨oc, tk, bt, oi, rl, fr, tp, br, er, ve, ck, ca, po, tr⟩ := t
  dsimp only at h1 h2 h3 h4 h5
  subst h1 h2 h3 h4 h5
  refine ⟨?_, ?_, ?_, ?_, ?_, ?_⟩ <;> dsimp only
  · omega
  · rw [List.nodup_append]
    exact ⟨hInv.nodup, List.nodup_singleton _,
      by intro a ha hb; rw [List.mem_singleton] at hb; exact hocm (hb ▸ ha)⟩
  · intro i hi
    rcases List.mem_append.mp hi with hi | hi
    · obtain ⟨a, b, c, d⟩ := hInv.entries i hi
      exact ⟨by omega, b, c, d⟩
    · rw [List.mem_singleton] at hi
      subst hi
      exact ⟨by omega, hs, (hInv.clean _ le_rfl).1, (hInv.clean _ le_rfl).2⟩
  · intro i hilt hni
    rw [List.mem_append, List.mem_singleton] at hni
    push_neg at hni
    exact hInv.settled i (by omega) hni.1
  · intro i hi
    exact hInv.clean i (by omega)
  · simp [hInv.len]

/-- Writing the per-item outcomes of a dispatched sub-batch and clearing the buffers
preserves the invariant (and settles exactly the batch's indices). -/
theorem Inv1_afterDispatch {cfg : RunCfg} {s t : St}
    {items : List (Except GoErr Vec)} {errs2 : ℕ → Option GoErr} {vecs2 : ℕ → Option Vec}
    (hInv : Inv1 cfg s)
    (hw : writeItems s.origIndex items s.errs s.vecs = some (errs2, vecs2))
    (h1 : t.objCounter = s.objCounter) (h2 : t.origIndex = [])
    (h3 : t.errs = errs2) (h4 : t.vecs = vecs2) (h5 : t.btexts = []) : Inv1 cfg t := by
  obtain ⟨hout, hmem⟩ := writeItems_sp s.origIndex items s.errs s.vecs errs2 vecs2 hw
  obtain ⟨oc, tk, bt, oi, rl, fr, tp, br, er, ve, ck, ca, po, tr⟩ := t
  dsimp only at h1 h2 h3 h4 h5
  subst h1 h2 h3 h4 h5
  refine ⟨?_, ?_, ?_, ?_, ?_, ?_⟩ <;> dsimp only
  · exact hInv.ocLe
  · exact List.nodup_nil
  · intro i hi
    exact absurd hi (List.not_mem_nil i)
  · intro i hilt _
    by_cases hio : i ∈ s.origIndex
    · obtain ⟨-, hsk, hce, hcv⟩ := hInv.entries i hio
      rcases hmem hInv.nodup i hio with ⟨ha, hb⟩ | ⟨ha, hb⟩
      · exact outcomeOk_err hsk ha (hb.trans hcv)
      · exact outcomeOk_vec hsk (ha.trans hce) hb
    · obtain ⟨ha, hb⟩ := hout i hio
      exact outcomeOk_ofEq (hInv.settled i hilt hio) ha hb
  · intro i hi
    have hio : i ∉ s.origIndex := by
      intro hmem2
      have := (hInv.entries i hmem2).1
      omega
    obtain ⟨ha, hb⟩ := hout i hio
    rw [ha, hb]
    exact hInv.clean i hi

/-! ## Preservation through the scheduler's phases (well-behaved client, live context) -/

theorem dispatchPhase_inv {cfg : RunCfg} (hor : oracleOk cfg.oracle) {s : St}
    (hInv : Inv1 cfg s) (rl : RateLimits) :
    (∀ s', dispatchPhase cfg s rl = .cont s' → Inv1 cfg s') ∧
    (∀ s', dispatchPhase cfg s rl ≠ .brk s') := by
  obtain ⟨items, errs2, vecs2, hres, hilen, hw, hmk⟩ :=
    makeRequest_ok hor s.calls s.btexts s.origIndex s.errs s.vecs hInv.len
  obtain ⟨-, rlO, hrlO, hprop⟩ := hor s.calls s.btexts
  unfold dispatchPhase
  rw [hmk]
  dsimp only
  rw [hrlO]
  dsimp only [Option.getD_some]
  unfold throttlePart
  rw [if_neg (by
    rintro ⟨ha, hb⟩
    rcases hprop with h | h
    · exact h ha
    · omega)]
  constructor
  · intro s' h
    injection h with h
    subst h
    exact Inv1_afterDispatch hInv hw rfl rfl rfl rfl rfl
  · intro s' h
    exact StepRes.noConfusion h

theorem oversizedWait_inv {cfg : RunCfg} {s : St} (hInv : Inv1 cfg s)
    (hoc : s.objCounter < cfg.n) (hs : cfg.jobSkip.getD s.objCounter false = false)
    (rl : RateLimits) (tok : ℤ) :
    (∀ s', oversizedWait cfg s rl tok = .cont s' → Inv1 cfg s') ∧
    (∀ s', oversizedWait cfg s rl tok ≠ .brk s') := by
  unfold oversizedWait
  dsimp only
  split
  · constructor
    · intro s' h
      injection h with h
      subst h
      exact Inv1_congr hInv rfl rfl rfl rfl rfl
    · intro s' h
      exact StepRes.noConfusion h
  · constructor
    · intro s' h
      injection h with h
      subst h
      exact Inv1_errAdvance hInv hoc hs GoErr.tooLongTimeout rfl rfl rfl rfl rfl
    · intro s' h
      exact StepRes.noConfusion h

theorem mainIter_inv {cfg : RunCfg} (hor : oracleOk cfg.oracle)
    (hctx : ctxLive cfg.ctxPolls) {s : St} (hInv : Inv1 cfg s)
    (hoc : s.objCounter < cfg.n) :
    (∀ s', mainIter cfg s = .cont s' → Inv1 cfg s') ∧
    (∀ s', mainIter cfg s ≠ .brk s') := by
  unfold mainIter
  rw [if_neg (by rw [hctx s.polls]; exact Bool.false_ne_true)]
  dsimp only
  by_cases hskip : cfg.jobSkip.getD s.objCounter false = true
  · rw [if_pos hskip]
    constructor
    · intro s' h
      injection h with h
      subst h
      exact Inv1_skipAdvance hInv hoc hskip rfl rfl rfl rfl rfl
    · intro s' h
      exact StepRes.noConfusion h
  · rw [if_neg hskip]
    rw [Bool.not_eq_true] at hskip
    cases hrl : s.rateLimit with
    | none =>
        constructor
        · intro s' h
          exact StepRes.noConfusion h
        · intro s' h
          exact StepRes.noConfusion h
    | some rl =>
        dsimp only
        by_cases htl : rl.limitTokens < cfg.jobTokens.getD s.objCounter 0
        · rw [if_pos htl]
          constructor
          · intro s' h
            injection h with h
            subst h
            exact Inv1_errAdvance hInv hoc hskip GoErr.tooLong rfl rfl rfl rfl rfl
          · intro s' h
            exact StepRes.noConfusion h
        · rw [if_neg htl]
          by_cases hadm :
              ((s.tokensInCurrentBatch + cfg.jobTokens.getD s.objCounter 0 : ℤ) : ℚ) <
                  19/20 * (rl.remainingTokens : ℚ)
                ∧ tptCheckB s.timePerToken s.tokensInCurrentBatch = true
                ∧ s.btexts.length < 2000
          · rw [if_pos hadm]
            split
            · constructor
              · intro s' h
                injection h with h
                subst h
                exact Inv1_admit hInv hoc hskip _ rfl rfl rfl rfl rfl
              · intro s' h
                exact StepRes.noConfusion h
            · refine dispatchPhase_inv hor ?_ rl
              exact Inv1_admit hInv hoc hskip _ rfl rfl rfl rfl rfl
          · rw [if_neg hadm]
            by_cases hov : s.btexts = [] ∧ 0 < rl.resetTokens
            · rw [if_pos hov]
              refine oversizedWait_inv ?_ ?_ ?_ rl _
              · exact Inv1_congr hInv rfl rfl rfl rfl rfl
              · exact hoc
              · exact hskip
            · rw [if_neg hov]
              refine dispatchPhase_inv hor ?_ rl
              exact Inv1_congr hInv rfl rfl rfl rfl rfl

theorem runBootstrap_inv {cfg : RunCfg} (hor : oracleOk cfg.oracle) :
    ∀ (fuel : ℕ) (s s' : St), Inv1 cfg s → runBootstrap cfg fuel s = .out s' →
      Inv1 cfg s' := by
  intro fuel
  induction fuel with
  | zero => intro s s' _ h; exact PhaseRes.noConfusion h
  | succ m ih =>
      intro s s' hInv h
      rw [runBootstrap] at h
      by_cases hc : s.objCounter < cfg.n ∧ s.firstRequest = true
      · rw [if_pos hc] at h
        by_cases hskip : cfg.jobSkip.getD s.objCounter false = true
        · rw [if_pos hskip] at h
          refine ih _ _ ?_ h
          exact Inv1_skipAdvance hInv hc.1 hskip rfl rfl rfl rfl rfl
        · rw [if_neg hskip] at h
          rw [Bool.not_eq_true] at hskip
          obtain ⟨items, errs2, vecs2, hres, hilen, hw, hmk⟩ :=
            makeRequest_ok hor s.calls [cfg.jobTexts.getD s.objCounter 0] [s.objCounter]
              s.errs s.vecs rfl
          rw [hmk] at h
          dsimp only at h
          refine ih _ _ ?_ h
          obtain ⟨hout, hmem⟩ :=
            writeItems_sp [s.objCounter] items s.errs s.vecs errs2 vecs2 hw
          refine ⟨?_, hInv.nodup, ?_, ?_, ?_, hInv.len⟩ <;> dsimp only
          · have := hc.1
            omega
          · intro i hi
            obtain ⟨a, b, c, d⟩ := hInv.entries i hi
            have hine : i ∉ [s.objCounter] := by
              rw [List.mem_singleton]
              omega
            obtain ⟨ha, hb⟩ := hout i hine
            exact ⟨by omega, b, ha.trans c, hb.trans d⟩
          · intro i hilt hni
            by_cases hio : i = s.objCounter
            · subst hio
              rcases hmem (List.nodup_singleton _) _ (List.mem_singleton_self _)
                  with ⟨ha, hb⟩ | ⟨ha, hb⟩
              · exact outcomeOk_err hskip ha (hb.trans (hInv.clean _ le_rfl).2)
              · exact outcomeOk_vec hskip (ha.trans (hInv.clean _ le_rfl).1) hb
            · have hine : i ∉ [s.objCounter] := by
                rw [List.mem_singleton]
                exact hio
              obtain ⟨ha, hb⟩ := hout i hine
              exact outcomeOk_ofEq (hInv.settled i (by omega) hni) ha hb
          · intro i hi
            have hine : i ∉ [s.objCounter] := by
              rw [List.mem_singleton]
              omega
            obtain ⟨ha, hb⟩ := hout i hine
            rw [ha, hb]
            exact hInv.clean i (by omega)
      · rw [if_neg hc] at h
        injection h with h
        subst h
        exact hInv

theorem runMain_inv {cfg : RunCfg} (hor : oracleOk cfg.oracle)
    (hctx : ctxLive cfg.ctxPolls) :
    ∀ (fuel : ℕ) (s s' : St), Inv1 cfg s → runMain cfg fuel s = .out s' →
      Inv1 cfg s' ∧ s'.objCounter = cfg.n := by
  intro fuel
  induction fuel with
  | zero => intro s s' _ h; exact PhaseRes.noConfusion h
  | succ m ih =>
      intro s s' hInv h
      rw [runMain] at h
      by_cases hoc : s.objCounter < cfg.n
      · rw [if_pos hoc] at h
        cases hmi : mainIter cfg s with
        | cont s2 =>
            rw [hmi] at h
            exact ih _ _ ((mainIter_inv hor hctx hInv hoc).1 s2 hmi) h
        | brk s2 => exact absurd hmi ((mainIter_inv hor hctx hInv hoc).2 s2)
        | crash =>
            rw [hmi] at h
            exact PhaseRes.noConfusion h
      · rw [if_neg hoc] at h
        injection h with h
        subst h
        exact ⟨hInv, by have := hInv.ocLe; omega⟩

theorem drain_outcomes {cfg : RunCfg} (hor : oracleOk cfg.oracle) {s s' : St}
    (hInv : Inv1 cfg s) (hoc : s.objCounter = cfg.n) (h : drainPhase cfg s = .out s') :
    ∀ i < cfg.n, outcomeOk cfg.jobSkip s'.errs s'.vecs i := by
  unfold drainPhase at h
  by_cases hcond : s.btexts ≠ [] ∧ s.objCounter = cfg.n
  · rw [if_pos hcond] at h
    obtain ⟨items, errs2, vecs2, hres, hilen, hw, hmk⟩ :=
      makeRequest_ok hor s.calls s.btexts s.origIndex s.errs s.vecs hInv.len
    rw [hmk] at h
    dsimp only at h
    injection h with h
    subst h
    dsimp only
    intro i hi
    obtain ⟨hout, hmem⟩ := writeItems_sp _ _ _ _ _ _ hw
    by_cases hio : i ∈ s.origIndex
    · obtain ⟨-, hsk, hce, hcv⟩ := hInv.entries i hio
      rcases hmem hInv.nodup i hio with ⟨ha, hb⟩ | ⟨ha, hb⟩
      · exact outcomeOk_err hsk ha (hb.trans hcv)
      · exact outcomeOk_vec hsk (ha.trans hce) hb
    · obtain ⟨ha, hb⟩ := hout i hio
      exact outcomeOk_ofEq (hInv.settled i (by omega) hio) ha hb
  · rw [if_neg hcond] at h
    injection h with h
    subst h
    intro i hi
    have hbt : s.btexts = [] := by
      by_contra hne
      exact hcond ⟨hne, hoc⟩
    have hoi : s.origIndex = [] := by
      have hlen0 := hInv.len
      rw [hbt] at hlen0
      exact List.length_eq_zero.mp (by simpa using hlen0)
    exact hInv.settled i (by omega) (by rw [hoi]; exact List.not_mem_nil i)

theorem initSt_inv (cfg : RunCfg) (w : WorkerState) (c0 : ℚ) : Inv1 cfg (initSt w c0) := by
  refine ⟨?_, ?_, ?_, ?_, ?_, ?_⟩ <;> dsimp only [initSt]
  · exact Nat.zero_le _
  · exact List.nodup_nil
  · intro i hi
    exact absurd hi (List.not_mem_nil i)
  · intro i hi
    omega
  · intro i _
    exact ⟨rfl, rfl⟩

/-! ## Claim C1 -/

/-- Claim C1, counterexample: a job the scheduler processes to completion (the completion
signal fires, `isOut = true`) in which the non-skipped index 1 was admitted into the
pending sub-batch and then lost to a context cancellation: at completion it has neither a
vector nor an error, violating the exactly-one-of-three invariant as stated. -/
theorem trichotomy_fails_on_cancelled_pending :
    isOut (batchWorkerJob cfgC1 freshWorker 0 50) = true ∧
    cfgC1.jobSkip.getD 1 false = false ∧
    jobOrigIndex (batchWorkerJob cfgC1 freshWorker 0 50) = [1] ∧
    jobErrs (batchWorkerJob cfgC1 freshWorker 0 50) 1 = none ∧
    jobVecs (batchWorkerJob cfgC1 freshWorker 0 50) 1 = none ∧
    jobErrs (batchWorkerJob cfgC1 freshWorker 0 50) 2 = some GoErr.ctxCancelled ∧
    ¬ outcomeOk cfgC1.jobSkip (jobErrs (batchWorkerJob cfgC1 freshWorker 0 50))
        (jobVecs (batchWorkerJob cfgC1 freshWorker 0 50)) 1 := by
  with_unfolding_all decide

/-- Claim C1 (amended): for every batch job the scheduler processes to completion,
**provided** the job's context is never cancelled, every client call returns an
index-aligned per-item result with rate-limit metadata, and no returned rate-limit state
triggers the request-rate abort (`RemainingRequests == 0 && ResetRequests > 0`), then for
every index `i` exactly one of the following holds: `skip[i]` is true (no vector, no
error), `vectors[i]` holds an embedding, or `errors[i]` is set.  (Without these provisos
the invariant fails: see the counterexample, where a cancellation strands an index
admitted into the pending sub-batch with neither outcome.) -/
theorem trichotomy_amended (cfg : RunCfg) (w : WorkerState) (c0 : ℚ) (fuel : ℕ) (s : St)
    (hor : oracleOk cfg.oracle) (hctx : ctxLive cfg.ctxPolls)
    (hrun : batchWorkerJob cfg w c0 fuel = PhaseRes.out s) :
    ∀ i < cfg.n, outcomeOk cfg.jobSkip s.errs s.vecs i := by
  unfold batchWorkerJob at hrun
  cases hb : runBootstrap cfg fuel (initSt w c0) with
  | crash => rw [hb] at hrun; exact PhaseRes.noConfusion hrun
  | fuelOut => rw [hb] at hrun; exact PhaseRes.noConfusion hrun
  | out s1 =>
      rw [hb] at hrun
      dsimp only at hrun
      have hInv1 := runBootstrap_inv hor fuel _ _ (initSt_inv cfg w c0) hb
      cases hm : runMain cfg fuel s1 with
      | crash => rw [hm] at hrun; exact PhaseRes.noConfusion hrun
      | fuelOut => rw [hm] at hrun; exact PhaseRes.noConfusion hrun
      | out s2 =>
          rw [hm] at hrun
          dsimp only at hrun
          obtain ⟨hInv2, hoc2⟩ := runMain_inv hor hctx fuel s1 s2 hInv1 hm
          exact drain_outcomes hor hInv2 hoc2 hrun

/-- Witness for the amended claim C1 at the concrete job `cfgW`. -/
theorem trichotomy_amended_witness :
    outcomeOk cfgW.jobSkip (jobErrs (batchWorkerJob cfgW freshWorker 0 50))
      (jobVecs (batchWorkerJob cfgW freshWorker 0 50)) 1 := by
  have hor : oracleOk cfgW.oracle := by
    intro k ts
    constructor
    · exact ⟨ts.map fun _ => .ok [1], by simp [cfgW, okOracle], by simp⟩
    · exact ⟨rlA, by simp [cfgW, okOracle], Or.inl (by simp [rlA])⟩
  have hctx : ctxLive cfgW.ctxPolls := fun k => rfl
  have ho : isOut (batchWorkerJob cfgW freshWorker 0 50) = true := by
    with_unfolding_all decide
  cases hrun : batchWorkerJob cfgW freshWorker 0 50 with
  | crash => rw [hrun] at ho; simp [isOut] at ho
  | fuelOut => rw [hrun] at ho; simp [isOut] at ho
  | out s =>
      have h := trichotomy_amended cfgW freshWorker 0 50 s hor hctx hrun 1 (by decide)
      simpa [hrun, jobErrs, jobVecs] using h

/-! ## Claim C2 -/

/-- The bootstrap loop never leaves index 0 when the probe keeps failing: the `continue`
in the error branch (objects.go:162) skips the `objCounter++`. -/
theorem runBootstrap_cfgC2_stuck : ∀ (fuel : ℕ) (s : St), s.objCounter = 0 →
    s.firstRequest = true → runBootstrap cfgC2 fuel s = PhaseRes.fuelOut := by
  intro fuel
  induction fuel with
  | zero => intro s _ _; rfl
  | succ m ih =>
      intro s h1 h2
      rw [runBootstrap]
      rw [if_pos ⟨by simp [h1, cfgC2, RunCfg.n], h2⟩]
      rw [if_neg (by simp [h1, cfgC2])]
      simp only [cfgC2, makeRequest, writeCallErr]
      exact ih _ (by simp [h1]) (by simp [h2])

/-- Claim C2: on the job `cfgC2` (one non-skipped text) with a client whose bootstrap
probe fails on every attempt, the per-job loop never terminates — for every fuel bound the
run is still inside the bootstrap retry loop, the completion signal never fires, and the
failing index is retried forever instead of being advanced past. -/
theorem bootstrap_failure_never_completes :
    ∀ fuel, batchWorkerJob cfgC2 freshWorker 0 fuel = PhaseRes.fuelOut := by
  intro fuel
  unfold batchWorkerJob
  rw [runBootstrap_cfgC2_stuck fuel (initSt freshWorker 0) rfl rfl]

/-! ## Claim C3 (counterexample) -/

/-- Claim C3, counterexample: on `cfgC3` the dispatch of sub-batch `[1]` succeeds and
writes `vectors[1]`, the refreshed rate-limit state triggers the abort, and the abort —
marking from `origIndex[0] = 1`, not from the first *unprocessed* index — overwrites the
just-dispatched index with a rate-limit error: index 1 ends with **both** a vector and an
error, so dispatched indices do not keep their outcome unchanged. -/
theorem rateAbort_overwrites_dispatched :
    isOut (batchWorkerJob cfgC3 freshWorker 0 50) = true ∧
    jobVecs (batchWorkerJob cfgC3 freshWorker 0 50) 1 = some [1] ∧
    jobErrs (batchWorkerJob cfgC3 freshWorker 0 50) 1 = some GoErr.rateLimitExceeded := by
  with_unfolding_all decide

/-! ## Claim C5 -/

/-- Claim C5: the sub-batch `[1]` of `cfgC3` is dispatched **twice** — once by the main
loop and, because the request-rate abort `break` skips the buffer reset while
`objCounter == len(job.texts)`, once more by the drain (objects.go:246-253), whose own
comment says it is only for jobs ending in a skipped or too-long object.  The full call
trace of the completed run is: the bootstrap probe `[0]`, the dispatch of `[1]`, and the
drain's second dispatch of the same `[1]`. -/
theorem drain_double_dispatch_after_abort :
    jobTrace (batchWorkerJob cfgC3 freshWorker 0 50) =
      [Event.call [0] 1 0 true 0, Event.call [1] 1 100 false 1,
       Event.call [1] 1 100 false 2] ∧
    isOut (batchWorkerJob cfgC3 freshWorker 0 50) = true := by
  with_unfolding_all decide

/-! ## Claim C6 (counterexample) -/

/-- Claim C6, counterexample: on `cfgC6` the context is cancelled while indices 1 and 2
sit in the pending, not-yet-dispatched sub-batch (`origIndex = [1, 2]`).  The claim says
those admitted indices are also marked with the cancellation error; in fact only indices
at or after `objCounter` (here index 3) are marked, and indices 1 and 2 end with neither
vector nor error. -/
theorem cancel_misses_pending :
    isOut (batchWorkerJob cfgC6 freshWorker 0 50) = true ∧
    cfgC6.jobSkip.getD 1 false = false ∧
    jobOrigIndex (batchWorkerJob cfgC6 freshWorker 0 50) = [1, 2] ∧
    jobErrs (batchWorkerJob cfgC6 freshWorker 0 50) 1 = none ∧
    jobVecs (batchWorkerJob cfgC6 freshWorker 0 50) 1 = none ∧
    jobErrs (batchWorkerJob cfgC6 freshWorker 0 50) 2 = none ∧
    jobVecs (batchWorkerJob cfgC6 freshWorker 0 50) 2 = none ∧
    jobErrs (batchWorkerJob cfgC6 freshWorker 0 50) 3 = some GoErr.ctxCancelled := by
  with_unfolding_all decide

/-! ## Claim C8 -/

/-- Claim C8, counterexample: an all-skipped input on which `ObjectBatch` does **not**
return an empty error map — when tokenizer model resolution fails, the tokenizer check
(objects.go:297-303) runs before the all-skipped short-circuit and fills an error for
every index (though still without enqueuing a job or calling the client). -/
theorem skipAll_errs_nonempty_on_tokenizer_failure :
    [true].getD 0 false = true ∧
    entryIsEnqueued (objectBatchEntry 1 [true] (some (GoErr.provider 3))
      (fun _ => 0) (fun _ => 0)) = false ∧
    entryErrs (objectBatchEntry 1 [true] (some (GoErr.provider 3))
      (fun _ => 0) (fun _ => 0)) 0 = some (GoErr.provider 3) := by
  with_unfolding_all decide

/-- Claim C8 (amended): when tokenizer model resolution succeeds and every index is
skipped, `ObjectBatch` returns immediately with all-`nil` vectors and an **empty** error
map, without enqueuing a job — and hence without any client call, since only the
`enqueued` outcome reaches the queue and the worker. -/
theorem skipAll_amended (numObjects : ℕ) (skip : List Bool)
    (textOf : ℕ → ℕ) (tokensOf : ℕ → ℤ)
    (hskip : ∀ i, i < numObjects → skip.getD i false = true) :
    objectBatchEntry numObjects skip none textOf tokensOf =
      BatchEntryRes.allSkipped (fun _ => none) (fun _ => none) := by
  simp only [objectBatchEntry]
  rw [if_pos]
  intro i hi
  rw [List.mem_range] at hi
  exact hskip i hi

/-- Witness for the amended claim C8: two objects, both skipped, resolvable model. -/
theorem skipAll_amended_witness :
    objectBatchEntry 2 [true, true] none (fun _ => 0) (fun _ => 0) =
      BatchEntryRes.allSkipped (fun _ => none) (fun _ => none) :=
  skipAll_amended 2 [true, true] (fun _ => 0) (fun _ => 0) (by decide)

/-! ## Claim C9 -/

/-- Claim C9: the single-object path is total on call-level errors and on any non-empty
chunk list, but has no defined value (Go panics with index out of range at
`res.Vector[0]`, objects.go:113) when the client reports success with an empty chunk
list — so the operation is well-defined only under the precondition that a successful
response carries at least one embedding chunk. -/
theorem object_single_chunk_precondition :
    object (.ok []) = none ∧
    (∀ e, object (.error e) = some (.error e)) ∧
    (∀ l : List Vec, l ≠ [] → object (.ok l) ≠ none) := by
  refine ⟨rfl, fun e => rfl, fun l hl => ?_⟩
  cases l with
  | nil => exact absurd rfl hl
  | cons v t =>
      simp only [object]
      split
      · simp
      · simp

/-- Witness for claim C9 at the one-chunk response. -/
theorem object_single_chunk_precondition_witness :
    object (.ok [[(1 : ℚ)]]) ≠ none :=
  object_single_chunk_precondition.2.2 [[(1 : ℚ)]] (by simp)

/-! ## Claim C10 -/

/-- Claim C10: on `cfgC10` the sub-batch `[1]` (total token count 0, because object 1 has
token count 0) is dispatched, `timePerToken = batchTookInS / 0` becomes non-finite
(`none` in the model), and from then on object 2 — whose 5 tokens are within the hard
limit and strictly below 95% of the refreshed 100-token budget — can never pass the
timing admission check: it ends with a permanent timeout error and no vector. -/
theorem timePerToken_zero_divisor_poisons :
    isOut (batchWorkerJob cfgC10 freshWorker 0 50) = true ∧
    jobTrace (batchWorkerJob cfgC10 freshWorker 0 50) =
      [Event.call [0] 1 0 true 0, Event.call [1] 0 2 false 1] ∧
    jobTpt (batchWorkerJob cfgC10 freshWorker 0 50) = none ∧
    cfgC10.jobTokens.getD 2 0 = 5 ∧ ((5 : ℚ) < 19/20 * 100) ∧
    jobErrs (batchWorkerJob cfgC10 freshWorker 0 50) 2 = some GoErr.tooLongTimeout ∧
    jobVecs (batchWorkerJob cfgC10 freshWorker 0 50) 2 = none := by
  with_unfolding_all decide

/-! ## Claim C6 (amended) -/

/-- Claim C6 (amended): when the context poll reports cancellation during accumulation,
the loop breaks immediately and exactly the non-skipped indices **at or after the current
accumulation position** (`objCounter`) are marked with the cancellation error; indices
below that position — in particular the indices already admitted into the pending,
not-yet-dispatched sub-batch — keep their previous (absent) error entry, no vector entry
changes, no further dispatch happens in this step (the trace is unchanged), and when
unprocessed items remain the drain does not fire either, so the pending sub-batch is
silently discarded. -/
theorem cancel_marking_amended (cfg : RunCfg) (s : St)
    (h : cfg.ctxPolls s.polls = true) :
    isBrk (mainIter cfg s) = true ∧
    (∀ j, s.objCounter ≤ j → j < cfg.n → cfg.jobSkip.getD j false = false →
      stepErrs (mainIter cfg s) j = some GoErr.ctxCancelled) ∧
    (∀ j, j < s.objCounter → stepErrs (mainIter cfg s) j = s.errs j) ∧
    (∀ j ∈ s.origIndex, j < s.objCounter →
      stepErrs (mainIter cfg s) j = s.errs j ∧ stepVecs (mainIter cfg s) j = s.vecs j) ∧
    (∀ j, stepVecs (mainIter cfg s) j = s.vecs j) ∧
    stepTrace (mainIter cfg s) = s.trace ∧
    (s.objCounter < cfg.n →
      drainPhase cfg (stepSt (mainIter cfg s)) = .out (stepSt (mainIter cfg s))) := by
  have hmi : mainIter cfg s = .brk { s with
      polls := s.polls + 1,
      errs := markLoop cfg.jobSkip GoErr.ctxCancelled cfg.n s.objCounter s.errs } := by
    unfold mainIter
    rw [if_pos h]
  rw [hmi]
  refine ⟨rfl, ?_, ?_, ?_, fun j => rfl, rfl, ?_⟩
  · intro j h1 h2 h3
    show markLoop cfg.jobSkip GoErr.ctxCancelled cfg.n s.objCounter s.errs j = _
    rw [markLoop_apply, if_pos ⟨h1, h2, h3⟩]
  · intro j h1
    show markLoop cfg.jobSkip GoErr.ctxCancelled cfg.n s.objCounter s.errs j = _
    rw [markLoop_apply, if_neg (by rintro ⟨h2, -, -⟩; omega)]
  · intro j _ h1
    refine ⟨?_, rfl⟩
    show markLoop cfg.jobSkip GoErr.ctxCancelled cfg.n s.objCounter s.errs j = _
    rw [markLoop_apply, if_neg (by rintro ⟨h2, -, -⟩; omega)]
  · intro hlt
    unfold drainPhase
    rw [if_neg (by rintro ⟨-, h2⟩; dsimp only [stepSt] at h2; omega)]

/-- Witness for the amended claim C6: a cancelled poll at a state with pending sub-batch
`[1]` and `objCounter = 2` in a 4-object job marks index 3 but leaves index 1 untouched. -/
theorem cancel_marking_amended_witness :
    isBrk (mainIter cfgCancel sampleSt2) = true ∧
    stepErrs (mainIter cfgCancel sampleSt2) 3 = some GoErr.ctxCancelled ∧
    stepErrs (mainIter cfgCancel sampleSt2) 1 = none := by
  have h := cancel_marking_amended cfgCancel sampleSt2 rfl
  refine ⟨h.1, h.2.1 3 (by decide) (by decide) (by decide), ?_⟩
  rw [h.2.2.1 1 (by decide)]
  rfl

/-! ## Claim C3 (amended) -/

/-- Claim C3 (amended): when, after a dispatch, the refreshed rate-limit state shows zero
remaining requests with a positive request-reset interval and the elapsed time plus the
reset interval exceeds the job's deadline, the loop breaks and every non-skipped index
**from the first index of the just-dispatched sub-batch** (`origIndex[0]`) onward — not
just the not-yet-dispatched ones — receives the rate-limit-exceeded error; indices below
`origIndex[0]` keep their error entries, and no vector entry is changed, so an index whose
vector the current dispatch just wrote ends up with both the vector and the new error. -/
theorem rateAbort_amended (cfg : RunCfg) (s : St) (rl2 : RateLimits) (lo : ℕ)
    (h0 : rl2.remainingRequests = 0) (h1 : 0 < rl2.resetRequests)
    (h2 : cfg.maxBatchTime < s.clock + (rl2.resetRequests : ℚ))
    (hhead : s.origIndex.head? = some lo) :
    isBrk (throttlePart cfg s rl2) = true ∧
    (∀ j, lo ≤ j → j < cfg.n → cfg.jobSkip.getD j false = false →
      stepErrs (throttlePart cfg s rl2) j = some GoErr.rateLimitExceeded) ∧
    (∀ j, j < lo → stepErrs (throttlePart cfg s rl2) j = s.errs j) ∧
    (∀ j, stepVecs (throttlePart cfg s rl2) j = s.vecs j) ∧
    stepTrace (throttlePart cfg s rl2) = s.trace := by
  have hth : throttlePart cfg s rl2 = .brk { s with
      errs := markLoop cfg.jobSkip GoErr.rateLimitExceeded cfg.n lo s.errs } := by
    unfold throttlePart
    rw [if_pos ⟨h0, h1⟩, if_pos h2, hhead]
  rw [hth]
  refine ⟨rfl, ?_, ?_, fun j => rfl, rfl⟩
  · intro j ha hb hc
    show markLoop cfg.jobSkip GoErr.rateLimitExceeded cfg.n lo s.errs j = _
    rw [markLoop_apply, if_pos ⟨ha, hb, hc⟩]
  · intro j ha
    show markLoop cfg.jobSkip GoErr.rateLimitExceeded cfg.n lo s.errs j = _
    rw [markLoop_apply, if_neg (by rintro ⟨hb, -, -⟩; omega)]

/-- Witness for the amended claim C3: at a state with just-dispatched sub-batch `[1]`,
a refreshed state with no remaining requests and a 10 s reset against a ½ s deadline
breaks the loop and marks index 1. -/
theorem rateAbort_amended_witness :
    isBrk (throttlePart cfgTiny sampleSt2 ⟨100, 100, 0, 100, 10, 0⟩) = true ∧
    stepErrs (throttlePart cfgTiny sampleSt2 ⟨100, 100, 0, 100, 10, 0⟩) 1 =
      some GoErr.rateLimitExceeded := by
  have h := rateAbort_amended cfgTiny sampleSt2 ⟨100, 100, 0, 100, 10, 0⟩ 1
    rfl (by norm_num)
    (by show (1 : ℚ)/2 < 0 + ((10 : ℤ) : ℚ); norm_num) rfl
  exact ⟨h.1, h.2.1 1 le_rfl (by decide) (by decide)⟩

/-! ## Claim C4: no sleep past the deadline -/

theorem throttlePart_sleepOk {cfg : RunCfg} {s : St} (rl2 : RateLimits)
    (h : ∀ ev ∈ s.trace, sleepOk cfg.maxBatchTime ev) :
    ∀ ev ∈ stepTrace (throttlePart cfg s rl2), sleepOk cfg.maxBatchTime ev := by
  unfold throttlePart
  by_cases hc1 : rl2.remainingRequests = 0 ∧ 0 < rl2.resetRequests
  · rw [if_pos hc1]
    by_cases hc2 : cfg.maxBatchTime < s.clock + (rl2.resetRequests : ℚ)
    · rw [if_pos hc2]
      cases hh : s.origIndex.head? with
      | none =>
          intro ev hev
          simp [stepTrace] at hev
      | some lo =>
          intro ev hev
          exact h ev hev
    · rw [if_neg hc2]
      intro ev hev
      dsimp only [stepTrace, resetBatch] at hev
      rw [List.mem_append] at hev
      rcases hev with hev | hev
      · exact h ev hev
      · rw [List.mem_singleton] at hev
        subst hev
        exact not_lt.mp hc2
  · rw [if_neg hc1]
    intro ev hev
    exact h ev hev

theorem dispatchPhase_sleepOk {cfg : RunCfg} {s : St} (rl : RateLimits)
    (h : ∀ ev ∈ s.trace, sleepOk cfg.maxBatchTime ev) :
    ∀ ev ∈ stepTrace (dispatchPhase cfg s rl), sleepOk cfg.maxBatchTime ev := by
  unfold dispatchPhase
  cases hmk : makeRequest cfg.oracle s.calls s.btexts s.origIndex s.errs s.vecs with
  | none =>
      intro ev hev
      simp [stepTrace] at hev
  | some out =>
      dsimp only
      apply throttlePart_sleepOk
      intro ev hev
      dsimp only at hev
      rw [List.mem_append] at hev
      rcases hev with hev | hev
      · exact h ev hev
      · rw [List.mem_singleton] at hev
        subst hev
        trivial

theorem oversizedWait_sleepOk {cfg : RunCfg} {s : St} (rl : RateLimits) (tok : ℤ)
    (h : ∀ ev ∈ s.trace, sleepOk cfg.maxBatchTime ev) :
    ∀ ev ∈ stepTrace (oversizedWait cfg s rl tok), sleepOk cfg.maxBatchTime ev := by
  unfold oversizedWait
  dsimp only
  by_cases hc : s.clock + oversizedSleepTime rl tok < cfg.maxBatchTime
  · rw [if_pos hc]
    intro ev hev
    dsimp only [stepTrace] at hev
    rw [List.mem_append] at hev
    rcases hev with hev | hev
    · exact h ev hev
    · rw [List.mem_singleton] at hev
      subst hev
      exact le_of_lt hc
  · rw [if_neg hc]
    intro ev hev
    exact h ev hev

theorem mainIter_sleepOk {cfg : RunCfg} {s : St}
    (h : ∀ ev ∈ s.trace, sleepOk cfg.maxBatchTime ev) :
    ∀ ev ∈ stepTrace (mainIter cfg s), sleepOk cfg.maxBatchTime ev := by
  unfold mainIter
  by_cases hctx : cfg.ctxPolls s.polls = true
  · rw [if_pos hctx]
    intro ev hev
    exact h ev hev
  · rw [if_neg hctx]
    dsimp only
    by_cases hskip : cfg.jobSkip.getD s.objCounter false = true
    · rw [if_pos hskip]
      intro ev hev
      exact h ev hev
    · rw [if_neg hskip]
      cases hrl : s.rateLimit with
      | none =>
          intro ev hev
          simp [stepTrace] at hev
      | some rl =>
          dsimp only
          by_cases htl : rl.limitTokens < cfg.jobTokens.getD s.objCounter 0
          · rw [if_pos htl]
            intro ev hev
            exact h ev hev
          · rw [if_neg htl]
            by_cases hadm :
                ((s.tokensInCurrentBatch + cfg.jobTokens.getD s.objCounter 0 : ℤ) : ℚ) <
                    19/20 * (rl.remainingTokens : ℚ)
                  ∧ tptCheckB s.timePerToken s.tokensInCurrentBatch = true
                  ∧ s.btexts.length < 2000
            · rw [if_pos hadm]
              split
              · intro ev hev
                exact h ev hev
              · exact dispatchPhase_sleepOk rl h
            · rw [if_neg hadm]
              by_cases hov : s.btexts = [] ∧ 0 < rl.resetTokens
              · rw [if_pos hov]
                exact oversizedWait_sleepOk rl _ h
              · rw [if_neg hov]
                exact dispatchPhase_sleepOk rl h

theorem runBootstrap_sleepOk {cfg : RunCfg} :
    ∀ (fuel : ℕ) (s s' : St), (∀ ev ∈ s.trace, sleepOk cfg.maxBatchTime ev) →
      runBootstrap cfg fuel s = .out s' → ∀ ev ∈ s'.trace, sleepOk cfg.maxBatchTime ev := by
  intro fuel
  induction fuel with
  | zero => intro s s' _ hr; exact PhaseRes.noConfusion hr
  | succ m ih =>
      intro s s' h hr
      rw [runBootstrap] at hr
      by_cases hc : s.objCounter < cfg.n ∧ s.firstRequest = true
      · rw [if_pos hc] at hr
        by_cases hskip : cfg.jobSkip.getD s.objCounter false = true
        · rw [if_pos hskip] at hr
          refine ih _ _ ?_ hr
          exact h
        · rw [if_neg hskip] at hr
          cases hmk : makeRequest cfg.oracle s.calls [cfg.jobTexts.getD s.objCounter 0]
              [s.objCounter] s.errs s.vecs with
          | none =>
              rw [hmk] at hr
              exact PhaseRes.noConfusion hr
          | some out =>
              rw [hmk] at hr
              dsimp only at hr
              have h2 : ∀ ev ∈ s.trace ++
                  [Event.call [s.objCounter] (cfg.jobTokens.getD s.objCounter 0)
                    s.batchRem true s.clock], sleepOk cfg.maxBatchTime ev := by
                intro ev hev
                rw [List.mem_append] at hev
                rcases hev with hev | hev
                · exact h ev hev
                · rw [List.mem_singleton] at hev
                  subst hev
                  trivial
              cases hce : out.callErr with
              | some e =>
                  rw [hce] at hr
                  exact ih _ _ h2 hr
              | none =>
                  rw [hce] at hr
                  exact ih _ _ h2 hr
      · rw [if_neg hc] at hr
        injection hr with hr
        subst hr
        exact h

theorem runMain_sleepOk {cfg : RunCfg} :
    ∀ (fuel : ℕ) (s s' : St), (∀ ev ∈ s.trace, sleepOk cfg.maxBatchTime ev) →
      runMain cfg fuel s = .out s' → ∀ ev ∈ s'.trace, sleepOk cfg.maxBatchTime ev := by
  intro fuel
  induction fuel with
  | zero => intro s s' _ hr; exact PhaseRes.noConfusion hr
  | succ m ih =>
      intro s s' h hr
      rw [runMain] at hr
      by_cases hoc : s.objCounter < cfg.n
      · rw [if_pos hoc] at hr
        cases hmi : mainIter cfg s with
        | cont s2 =>
            rw [hmi] at hr
            refine ih _ _ ?_ hr
            have hmis := mainIter_sleepOk h
            rw [hmi] at hmis
            exact hmis
        | brk s2 =>
            rw [hmi] at hr
            injection hr with hr
            subst hr
            have hmis := mainIter_sleepOk h
            rw [hmi] at hmis
            exact hmis
        | crash =>
            rw [hmi] at hr
            exact PhaseRes.noConfusion hr
      · rw [if_neg hoc] at hr
        injection hr with hr
        subst hr
        exact h

theorem drainPhase_sleepOk {cfg : RunCfg} {s s' : St}
    (h : ∀ ev ∈ s.trace, sleepOk cfg.maxBatchTime ev)
    (hr : drainPhase cfg s = .out s') : ∀ ev ∈ s'.trace, sleepOk cfg.maxBatchTime ev := by
  unfold drainPhase at hr
  by_cases hc : s.btexts ≠ [] ∧ s.objCounter = cfg.n
  · rw [if_pos hc] at hr
    cases hmk : makeRequest cfg.oracle s.calls s.btexts s.origIndex s.errs s.vecs with
    | none =>
        rw [hmk] at hr
        exact PhaseRes.noConfusion hr
    | some out =>
        rw [hmk] at hr
        dsimp only at hr
        injection hr with hr
        subst hr
        intro ev hev
        dsimp only at hev
        rw [List.mem_append] at hev
        rcases hev with hev | hev
        · exact h ev hev
        · rw [List.mem_singleton] at hev
          subst hev
          trivial
  · rw [if_neg hc] at hr
    injection hr with hr
    subst hr
    exact h

/-- Claim C4: (1) in every completed run, every sleep that was entered (THROTTLE or the
oversized-item wait) satisfied `elapsed + duration ≤ maxBatchTime` — a sleep is never
entered when the elapsed time plus the intended duration exceeds the deadline; (2) when
the oversized-item wait would overshoot the deadline, the object is instead marked with
the permanent timeout error and skipped, with no sleep; (3) when the request-rate reset
would overshoot the deadline, THROTTLE instead marks the affected non-skipped items with
the rate-limit error and breaks, with no sleep.  All parts hold for every job, every
worker state and every rate-limit state. -/
theorem deadline_respected :
    (∀ (cfg : RunCfg) (w : WorkerState) (c0 : ℚ) (fuel : ℕ) (s : St),
      batchWorkerJob cfg w c0 fuel = PhaseRes.out s →
      ∀ ev ∈ s.trace, sleepOk cfg.maxBatchTime ev) ∧
    (∀ (cfg : RunCfg) (s : St) (rl : RateLimits) (tok : ℤ),
      cfg.maxBatchTime ≤ s.clock + oversizedSleepTime rl tok →
      isCont (oversizedWait cfg s rl tok) = true ∧
      stepErrs (oversizedWait cfg s rl tok) s.objCounter = some GoErr.tooLongTimeout ∧
      stepObj (oversizedWait cfg s rl tok) = s.objCounter + 1 ∧
      stepTrace (oversizedWait cfg s rl tok) = s.trace) ∧
    (∀ (cfg : RunCfg) (s : St) (rl2 : RateLimits) (lo : ℕ),
      rl2.remainingRequests = 0 → 0 < rl2.resetRequests →
      cfg.maxBatchTime < s.clock + (rl2.resetRequests : ℚ) →
      s.origIndex.head? = some lo →
      isBrk (throttlePart cfg s rl2) = true ∧
      (∀ j, lo ≤ j → j < cfg.n → cfg.jobSkip.getD j false = false →
        stepErrs (throttlePart cfg s rl2) j = some GoErr.rateLimitExceeded) ∧
      stepTrace (throttlePart cfg s rl2) = s.trace) := by
  refine ⟨?_, ?_, ?_⟩
  · intro cfg w c0 fuel s hrun
    unfold batchWorkerJob at hrun
    cases hb : runBootstrap cfg fuel (initSt w c0) with
    | crash => rw [hb] at hrun; exact PhaseRes.noConfusion hrun
    | fuelOut => rw [hb] at hrun; exact PhaseRes.noConfusion hrun
    | out s1 =>
        rw [hb] at hrun
        dsimp only at hrun
        have h1 := runBootstrap_sleepOk fuel _ _
          (by intro ev hev; simp [initSt] at hev) hb
        cases hm : runMain cfg fuel s1 with
        | crash => rw [hm] at hrun; exact PhaseRes.noConfusion hrun
        | fuelOut => rw [hm] at hrun; exact PhaseRes.noConfusion hrun
        | out s2 =>
            rw [hm] at hrun
            dsimp only at hrun
            exact drainPhase_sleepOk (runMain_sleepOk fuel _ _ h1 hm) hrun
  · intro cfg s rl tok hle
    unfold oversizedWait
    dsimp only
    rw [if_neg (not_lt.mpr hle)]
    refine ⟨rfl, ?_, rfl, rfl⟩
    show Function.update s.errs s.objCounter (some GoErr.tooLongTimeout) s.objCounter = _
    rw [Function.update_same]
  · intro cfg s rl2 lo h0 h1 h2 hhead
    have hth : throttlePart cfg s rl2 = .brk { s with
        errs := markLoop cfg.jobSkip GoErr.rateLimitExceeded cfg.n lo s.errs } := by
      unfold throttlePart
      rw [if_pos ⟨h0, h1⟩, if_pos h2, hhead]
    rw [hth]
    refine ⟨rfl, ?_, rfl⟩
    intro j ha hb hc
    show markLoop cfg.jobSkip GoErr.rateLimitExceeded cfg.n lo s.errs j = _
    rw [markLoop_apply, if_pos ⟨ha, hb, hc⟩]

/-- Witness for claim C4: the completed run of `cfgSleep` (whose trace contains a real
2 s THROTTLE sleep at clock 2 against a 100 s deadline), plus concrete instances of the
two fail-instead-of-sleep branches against the ½ s deadline of `cfgTiny`. -/
theorem deadline_respected_witness :
    List.Forall (sleepOk cfgSleep.maxBatchTime)
      (jobTrace (batchWorkerJob cfgSleep freshWorker 0 50)) ∧
    stepErrs (oversizedWait cfgTiny sampleSt rlA 5) 0 = some GoErr.tooLongTimeout ∧
    isBrk (throttlePart cfgTiny sampleSt2 ⟨100, 100, 0, 100, 10, 0⟩) = true := by
  refine ⟨?_, ?_, ?_⟩
  · have ho : isOut (batchWorkerJob cfgSleep freshWorker 0 50) = true := by
      with_unfolding_all decide
    cases hrun : batchWorkerJob cfgSleep freshWorker 0 50 with
    | crash => rw [hrun] at ho; simp [isOut] at ho
    | fuelOut => rw [hrun] at ho; simp [isOut] at ho
    | out s =>
        have h := deadline_respected.1 cfgSleep freshWorker 0 50 s hrun
        rw [List.forall_iff_forall_mem]
        simpa [hrun, jobTrace] using h
  · exact (deadline_respected.2.1 cfgTiny sampleSt rlA 5
      (by show (1 : ℚ)/2 ≤ 0 + oversizedSleepTime rlA 5
          norm_num [oversizedSleepTime, rlA])).2.1
  · exact (deadline_respected.2.2 cfgTiny sampleSt2 ⟨100, 100, 0, 100, 10, 0⟩ 1
      rfl (by norm_num)
      (by show (1 : ℚ)/2 < 0 + ((10 : ℤ) : ℚ)
          norm_num) rfl).1

/-! ## Claim C7: the token-budget admission bound -/

theorem throttlePart_inv7 {cfg : RunCfg} {s : St} (rl2 : RateLimits) (h : Inv7 cfg s) :
    (∀ s', throttlePart cfg s rl2 = .cont s' → Inv7 cfg s') ∧
    (∀ s', throttlePart cfg s rl2 = .brk s' → Inv7 cfg s') := by
  unfold throttlePart
  by_cases hc1 : rl2.remainingRequests = 0 ∧ 0 < rl2.resetRequests
  · rw [if_pos hc1]
    by_cases hc2 : cfg.maxBatchTime < s.clock + (rl2.resetRequests : ℚ)
    · rw [if_pos hc2]
      cases hh : s.origIndex.head? with
      | none =>
          exact ⟨fun s' h' => StepRes.noConfusion h', fun s' h' => StepRes.noConfusion h'⟩
      | some lo =>
          constructor
          · intro s' h'
            exact StepRes.noConfusion h'
          · intro s' h'
            injection h' with h'
            subst h'
            exact ⟨h.sum, h.bound, h.evs⟩
    · rw [if_neg hc2]
      constructor
      · intro s' h'
        injection h' with h'
        subst h'
        refine ⟨rfl, fun hne => absurd rfl hne, ?_⟩
        intro ev hev
        dsimp only [resetBatch] at hev
        rw [List.mem_append] at hev
        rcases hev with hev | hev
        · exact h.evs ev hev
        · rw [List.mem_singleton] at hev
          subst hev
          trivial
      · intro s' h'
        exact StepRes.noConfusion h'
  · rw [if_neg hc1]
    constructor
    · intro s' h'
      injection h' with h'
      subst h'
      exact ⟨rfl, fun hne => absurd rfl hne, h.evs⟩
    · intro s' h'
      exact StepRes.noConfusion h'

theorem dispatchPhase_inv7 {cfg : RunCfg} {s : St} (rl : RateLimits) (h : Inv7 cfg s) :
    (∀ s', dispatchPhase cfg s rl = .cont s' → Inv7 cfg s') ∧
    (∀ s', dispatchPhase cfg s rl = .brk s' → Inv7 cfg s') := by
  unfold dispatchPhase
  cases hmk : makeRequest cfg.oracle s.calls s.btexts s.origIndex s.errs s.vecs with
  | none =>
      exact ⟨fun s' h' => StepRes.noConfusion h', fun s' h' => StepRes.noConfusion h'⟩
  | some out =>
      dsimp only
      apply throttlePart_inv7
      refine ⟨h.sum, h.bound, ?_⟩
      intro ev hev
      dsimp only at hev
      rw [List.mem_append] at hev
      rcases hev with hev | hev
      · exact h.evs ev hev
      · rw [List.mem_singleton] at hev
        subst hev
        intro _ hne
        exact ⟨h.bound hne, h.sum⟩

theorem oversizedWait_inv7 {cfg : RunCfg} {s : St} (rl : RateLimits) (tok : ℤ)
    (h : Inv7 cfg s) :
    (∀ s', oversizedWait cfg s rl tok = .cont s' → Inv7 cfg s') ∧
    (∀ s', oversizedWait cfg s rl tok = .brk s' → Inv7 cfg s') := by
  unfold oversizedWait
  dsimp only
  by_cases hc : s.clock + oversizedSleepTime rl tok < cfg.maxBatchTime
  · rw [if_pos hc]
    constructor
    · intro s' h'
      injection h' with h'
      subst h'
      refine ⟨h.sum, h.bound, ?_⟩
      intro ev hev
      dsimp only at hev
      rw [List.mem_append] at hev
      rcases hev with hev | hev
      · exact h.evs ev hev
      · rw [List.mem_singleton] at hev
        subst hev
        trivial
    · intro s' h'
      exact StepRes.noConfusion h'
  · rw [if_neg hc]
    constructor
    · intro s' h'
      injection h' with h'
      subst h'
      exact ⟨h.sum, h.bound, h.evs⟩
    · intro s' h'
      exact StepRes.noConfusion h'

theorem mainIter_inv7 {cfg : RunCfg} {s : St} (h : Inv7 cfg s) :
    (∀ s', mainIter cfg s = .cont s' → Inv7 cfg s') ∧
    (∀ s', mainIter cfg s = .brk s' → Inv7 cfg s') := by
  unfold mainIter
  by_cases hctx : cfg.ctxPolls s.polls = true
  · rw [if_pos hctx]
    constructor
    · intro s' h'
      exact StepRes.noConfusion h'
    · intro s' h'
      injection h' with h'
      subst h'
      exact ⟨h.sum, h.bound, h.evs⟩
  · rw [if_neg hctx]
    dsimp only
    by_cases hskip : cfg.jobSkip.getD s.objCounter false = true
    · rw [if_pos hskip]
      constructor
      · intro s' h'
        injection h' with h'
        subst h'
        exact ⟨h.sum, h.bound, h.evs⟩
      · intro s' h'
        exact StepRes.noConfusion h'
    · rw [if_neg hskip]
      cases hrl : s.rateLimit with
      | none =>
          exact ⟨fun s' h' => StepRes.noConfusion h', fun s' h' => StepRes.noConfusion h'⟩
      | some rl =>
          dsimp only
          by_cases htl : rl.limitTokens < cfg.jobTokens.getD s.objCounter 0
          · rw [if_pos htl]
            constructor
            · intro s' h'
              injection h' with h'
              subst h'
              exact ⟨h.sum, h.bound, h.evs⟩
            · intro s' h'
              exact StepRes.noConfusion h'
          · rw [if_neg htl]
            by_cases hadm :
                ((s.tokensInCurrentBatch + cfg.jobTokens.getD s.objCounter 0 : ℤ) : ℚ) <
                    19/20 * (rl.remainingTokens : ℚ)
                  ∧ tptCheckB s.timePerToken s.tokensInCurrentBatch = true
                  ∧ s.btexts.length < 2000
            · rw [if_pos hadm]
              have hadm7 : Inv7 cfg { s with
                  polls := s.polls + 1,
                  rateLimit := some rl,
                  tokensInCurrentBatch :=
                    s.tokensInCurrentBatch + cfg.jobTokens.getD s.objCounter 0,
                  btexts := s.btexts ++ [cfg.jobTexts.getD s.objCounter 0],
                  origIndex := s.origIndex ++ [s.objCounter],
                  batchRem := rl.remainingTokens,
                  objCounter := s.objCounter + 1 } := by
                refine ⟨?_, ?_, ?_⟩ <;> dsimp only
                · rw [List.map_append, List.sum_append, ← h.sum]
                  simp
                · intro _
                  exact_mod_cast hadm.1
                · exact h.evs
              split
              · constructor
                · intro s' h'
                  injection h' with h'
                  subst h'
                  exact hadm7
                · intro s' h'
                  exact StepRes.noConfusion h'
              · exact dispatchPhase_inv7 rl hadm7
            · rw [if_neg hadm]
              by_cases hov : s.btexts = [] ∧ 0 < rl.resetTokens
              · rw [if_pos hov]
                exact oversizedWait_inv7 rl _ ⟨h.sum, h.bound, h.evs⟩
              · rw [if_neg hov]
                exact dispatchPhase_inv7 rl ⟨h.sum, h.bound, h.evs⟩

theorem runBootstrap_inv7 {cfg : RunCfg} :
    ∀ (fuel : ℕ) (s s' : St), Inv7 cfg s → runBootstrap cfg fuel s = .out s' →
      Inv7 cfg s' := by
  intro fuel
  induction fuel with
  | zero => intro s s' _ hr; exact PhaseRes.noConfusion hr
  | succ m ih =>
      intro s s' h hr
      rw [runBootstrap] at hr
      by_cases hc : s.objCounter < cfg.n ∧ s.firstRequest = true
      · rw [if_pos hc] at hr
        by_cases hskip : cfg.jobSkip.getD s.objCounter false = true
        · rw [if_pos hskip] at hr
          refine ih _ _ ?_ hr
          exact ⟨h.sum, h.bound, h.evs⟩
        · rw [if_neg hskip] at hr
          cases hmk : makeRequest cfg.oracle s.calls [cfg.jobTexts.getD s.objCounter 0]
              [s.objCounter] s.errs s.vecs with
          | none =>
              rw [hmk] at hr
              exact PhaseRes.noConfusion hr
          | some out =>
              rw [hmk] at hr
              dsimp only at hr
              have h2 : ∀ ev ∈ s.trace ++
                  [Event.call [s.objCounter] (cfg.jobTokens.getD s.objCounter 0)
                    s.batchRem true s.clock], tokenBudgetOk cfg.jobTokens ev := by
                intro ev hev
                rw [List.mem_append] at hev
                rcases hev with hev | hev
                · exact h.evs ev hev
                · rw [List.mem_singleton] at hev
                  subst hev
                  intro hbs
                  exact absurd hbs (by decide)
              cases hce : out.callErr with
              | some e =>
                  rw [hce] at hr
                  refine ih _ _ ?_ hr
                  exact ⟨h.sum, h.bound, h2⟩
              | none =>
                  rw [hce] at hr
                  refine ih _ _ ?_ hr
                  exact ⟨h.sum, h.bound, h2⟩
      · rw [if_neg hc] at hr
        injection hr with hr
        subst hr
        exact h

theorem runMain_inv7 {cfg : RunCfg} :
    ∀ (fuel : ℕ) (s s' : St), Inv7 cfg s → runMain cfg fuel s = .out s' →
      Inv7 cfg s' := by
  intro fuel
  induction fuel with
  | zero => intro s s' _ hr; exact PhaseRes.noConfusion hr
  | succ m ih =>
      intro s s' h hr
      rw [runMain] at hr
      by_cases hoc : s.objCounter < cfg.n
      · rw [if_pos hoc] at hr
        cases hmi : mainIter cfg s with
        | cont s2 =>
            rw [hmi] at hr
            exact ih _ _ ((mainIter_inv7 h).1 s2 hmi) hr
        | brk s2 =>
            rw [hmi] at hr
            injection hr with hr
            subst hr
            exact (mainIter_inv7 h).2 s2 hmi
        | crash =>
            rw [hmi] at hr
            exact PhaseRes.noConfusion hr
      · rw [if_neg hoc] at hr
        injection hr with hr
        subst hr
        exact h

theorem drainPhase_inv7 {cfg : RunCfg} {s s' : St} (h : Inv7 cfg s)
    (hr : drainPhase cfg s = .out s') :
    ∀ ev ∈ s'.trace, tokenBudgetOk cfg.jobTokens ev := by
  unfold drainPhase at hr
  by_cases hc : s.btexts ≠ [] ∧ s.objCounter = cfg.n
  · rw [if_pos hc] at hr
    cases hmk : makeRequest cfg.oracle s.calls s.btexts s.origIndex s.errs s.vecs with
    | none =>
        rw [hmk] at hr
        exact PhaseRes.noConfusion hr
    | some out =>
        rw [hmk] at hr
        dsimp only at hr
        injection hr with hr
        subst hr
        intro ev hev
        dsimp only at hev
        rw [List.mem_append] at hev
        rcases hev with hev | hev
        · exact h.evs ev hev
        · rw [List.mem_singleton] at hev
          subst hev
          intro _ hne
          exact ⟨h.bound hne, h.sum⟩
  · rw [if_neg hc] at hr
    injection hr with hr
    subst hr
    exact h.evs

/-- Claim C7: in every completed run, every dispatched sub-batch other than the
single-item bootstrap probe (and other than the degenerate empty dispatch, which admits
no item) has a token total equal to the sum of its items' token counts and strictly below
95% of the remaining-token budget known at the time its last item was admitted during
accumulation. -/
theorem token_budget_admission (cfg : RunCfg) (w : WorkerState) (c0 : ℚ) (fuel : ℕ)
    (s : St) (hrun : batchWorkerJob cfg w c0 fuel = PhaseRes.out s) :
    ∀ ev ∈ s.trace, tokenBudgetOk cfg.jobTokens ev := by
  unfold batchWorkerJob at hrun
  cases hb : runBootstrap cfg fuel (initSt w c0) with
  | crash => rw [hb] at hrun; exact PhaseRes.noConfusion hrun
  | fuelOut => rw [hb] at hrun; exact PhaseRes.noConfusion hrun
  | out s1 =>
      rw [hb] at hrun
      dsimp only at hrun
      have h0 : Inv7 cfg (initSt w c0) := by
        refine ⟨rfl, fun hne => absurd rfl hne, ?_⟩
        intro ev hev
        simp [initSt] at hev
      have h1 := runBootstrap_inv7 fuel _ _ h0 hb
      cases hm : runMain cfg fuel s1 with
      | crash => rw [hm] at hrun; exact PhaseRes.noConfusion hrun
      | fuelOut => rw [hm] at hrun; exact PhaseRes.noConfusion hrun
      | out s2 =>
          rw [hm] at hrun
          dsimp only at hrun
          exact drainPhase_inv7 (runMain_inv7 fuel _ _ h1 hm) hrun

/-- Witness for claim C7 on the completed run of `cfgW`, whose trace contains the
bootstrap probe `[0]` and one real dispatched sub-batch `[1]`. -/
theorem token_budget_admission_witness :
    List.Forall (tokenBudgetOk cfgW.jobTokens)
      (jobTrace (batchWorkerJob cfgW freshWorker 0 50)) := by
  have ho : isOut (batchWorkerJob cfgW freshWorker 0 50) = true := by
    with_unfolding_all decide
  cases hrun : batchWorkerJob cfgW freshWorker 0 50 with
  | crash => rw [hrun] at ho; simp [isOut] at ho
  | fuelOut => rw [hrun] at ho; simp [isOut] at ho
  | out s =>
      have h := token_budget_admission cfgW freshWorker 0 50 s hrun
      rw [List.forall_iff_forall_mem]
      simpa [hrun, jobTrace] using h

end WeaviateBatch
